import Mathlib

/-!
# Scan media ingestion and quality evaluation: a shallow embedding

This file embeds the scan-media ingestion and quality-evaluation pipeline of
`apps/api/src/media.ts` (together with the required-angle enumeration of
`apps/api/src/validators.ts`) into Lean, and proves the specified properties of
the StatusResolver, ChecksumVerifier, QualityAnalyzer, UploadTargetIssuer and
IngestionOrchestrator components.

Modelling conventions:
* JavaScript numbers are modelled as exact rationals (`ℚ`); grayscale samples
  are natural numbers (sharp's raw grayscale output is `uint8`).
* External collaborators (S3 object storage, the sha-256 digest from node's
  `crypto`, base64 encoding, sharp's image decoder, and the Prisma persistence
  layer's failure behaviour) are supplied as explicit capability records; the
  repository's own logic is translated directly.
* A thrown JavaScript exception inside the per-image `try` block is modelled by
  an explicit `throwErr` outcome of the corresponding capability.
-/

/-- From `apps/api/src/types.ts`: `type ScanAngle = "front" | "left" | "right" | "left45" | "right45"`. -/
inductive ScanAngle where
  | front | left | right | left45 | right45
deriving DecidableEq

/-- From `apps/api/src/types.ts`: scan lifecycle status
`"pending" | "processing" | "complete" | "rejected"`. -/
inductive ScanStatus where
  | pending | processing | complete | rejected
deriving DecidableEq

/-- The string form of an angle, as interpolated into storage keys and quality
flags (`` `${image.angle}` `` in `media.ts`). -/
def angleKey : ScanAngle → String
  | .front => "front"
  | .left => "left"
  | .right => "right"
  | .left45 => "left45"
  | .right45 => "right45"

/-- From `apps/api/src/validators.ts` lines 4–10: the required-angle enumeration. -/
def REQUIRED_ANGLES : List ScanAngle :=
  [.front, .left, .right, .left45, .right45]

/-- A quality flag `` `${kind}:${angle}` `` as built by string interpolation in
`ingestScanMedia`. -/
def flagFor (kind : String) (a : ScanAngle) : String :=
  kind ++ ":" ++ angleKey a

/-- JavaScript `String.prototype.startsWith`, used in `media.ts` line 282 as
`flag.startsWith("checksum_mismatch")`; expressed over the character list. -/
def strStartsWith (s p : String) : Bool :=
  List.isPrefixOf p.data s.data

/-- StatusResolver, `media.ts` lines 281–283: `Array.from(qualityFlags).some(flag =>
flag.startsWith("checksum_mismatch"))`. -/
def hasChecksumMismatch (qualityFlags : List String) : Bool :=
  qualityFlags.any (fun flag => strStartsWith flag "checksum_mismatch")

/-- StatusResolver, `media.ts` lines 284–288: derive the scan status from the
aggregated flags and the missing-angle list (`missingAngles.length` is truthy
exactly when the list is non-empty). -/
def resolveStatus (qualityFlags : List String) (missingAngles : List ScanAngle) :
    ScanStatus :=
  if hasChecksumMismatch qualityFlags then .rejected
  else if 0 < missingAngles.length then .processing
  else .complete

-- Quality-flag kinds emitted anywhere in `ingestScanMedia`.
/-- All flag kinds that `ingestScanMedia` ever emits. -/
def flagKinds : List String :=
  ["missing_storage", "processing_error", "missing_object", "checksum_mismatch",
   "blur", "low_light", "pose", "missing_angle"]

/-- All angles. -/
def angleList : List ScanAngle := [.front, .left, .right, .left45, .right45]

/-! ## QualityAnalyzer (`analyzeImage`, `media.ts` lines 79–132)

`sharp(buffer).grayscale().raw()` decodes the buffer into a row-major list of
`uint8` grayscale samples together with the decoded width and height; the
decoding itself is an external collaborator, so `analyzeImage` is embedded as a
function of the decoded grayscale image. JavaScript floating-point numbers are
modelled as exact rationals. -/

/-- A decoded grayscale image: `info.width`, `info.height`, and the row-major
sample buffer `data` (entries are `uint8` intensities). -/
structure GrayImage where
  width : Nat
  height : Nat
  data : List Nat

/-- Sample `data[i]` as an integer; out-of-range reads default to `0` (every read the
analyzer performs is in range whenever `data.length = width * height`). -/
def px (data : List Nat) (i : Nat) : ℤ :=
  (data.getD i 0 : ℤ)

def ratOfInt (n : ℤ) : ℚ := (n : ℚ)

def ratOfNat (n : Nat) : ℚ := (n : ℚ)

/-- The interior pixel coordinates `(x, y)` visited by the nested loops
`for (y = 1; y < height - 1; y++) for (x = 1; x < width - 1; x++)`. -/
def interiorPoints (width height : Nat) : List (Nat × Nat) :=
  (List.range' 1 (height - 2)).flatMap fun y =>
    (List.range' 1 (width - 2)).map fun x => (x, y)

/-- From `media.ts` lines 101–107: the discrete Laplacian accumulated by the loop
body, with `idx = y * width + x` and neighbours `idx ± width`, `idx ± 1`. -/
def lapAt (data : List Nat) (width : Nat) (p : Nat × Nat) : ℤ :=
  -4 * px data (p.2 * width + p.1) + px data (p.2 * width + p.1 - width) +
    px data (p.2 * width + p.1 + width) + px data (p.2 * width + p.1 - 1) +
    px data (p.2 * width + p.1 + 1)

/-- From `media.ts` line 50: `Number(process.env.BLUR_THRESHOLD ?? 120)` with the
environment override absent. -/
def BLUR_THRESHOLD : ℚ := 120

/-- From `media.ts` line 51: `Number(process.env.LIGHT_THRESHOLD ?? 55)` with the
environment override absent. -/
def LIGHT_THRESHOLD : ℚ := 55

structure LandmarkPoint where
  name : String
  x : ℚ
  y : ℚ
deriving DecidableEq

structure Landmarks where
  estimated : Bool
  points : List LandmarkPoint
deriving DecidableEq

structure QualityResult where
  blurScore : ℚ
  lightScore : ℚ
  poseOk : Bool
  landmarks : Landmarks
deriving DecidableEq

/-- From `media.ts` lines 118–127: the placeholder proportional landmark estimate
(decimal literals modelled as exact rationals). -/
def placeholderLandmarks (width height : Nat) : Landmarks :=
  { estimated := true
    points :=
      [⟨"leftEye", 35 / 100 * ratOfNat width, 40 / 100 * ratOfNat height⟩,
       ⟨"rightEye", 65 / 100 * ratOfNat width, 40 / 100 * ratOfNat height⟩,
       ⟨"nose", 50 / 100 * ratOfNat width, 55 / 100 * ratOfNat height⟩,
       ⟨"mouthLeft", 42 / 100 * ratOfNat width, 70 / 100 * ratOfNat height⟩,
       ⟨"mouthRight", 58 / 100 * ratOfNat width, 70 / 100 * ratOfNat height⟩] }

/-- The analyzer `analyzeImage`, `media.ts` lines 79–132: the intensity sum over all samples
divided by `width * height` gives `lightScore`; the Laplacian loop accumulates
`laplacianSum`, `laplacianSqSum` and `count` over the interior pixels, and
`blurScore = laplacianSqSum / max(count, 1) − mean²` with
`mean = laplacianSum / max(count, 1)`; `poseOk` compares both scores against
the thresholds. -/
def analyzeImage (img : GrayImage) : QualityResult :=
  let size := img.width * img.height
  let lightScore : ℚ := ratOfNat img.data.sum / ratOfNat size
  let laps : List ℤ := (interiorPoints img.width img.height).map (lapAt img.data img.width)
  let laplacianSum : ℤ := laps.sum
  let laplacianSqSum : ℤ := (laps.map (fun l => l * l)).sum
  let count : Nat := laps.length
  let mean : ℚ := ratOfInt laplacianSum / ratOfNat (max count 1)
  let variance : ℚ := ratOfInt laplacianSqSum / ratOfNat (max count 1) - mean * mean
  let blurScore := variance
  let poseOk : Bool :=
    decide (blurScore ≥ BLUR_THRESHOLD) && decide (lightScore ≥ LIGHT_THRESHOLD)
  { blurScore := blurScore
    lightScore := lightScore
    poseOk := poseOk
    landmarks := placeholderLandmarks img.width img.height }

/-! Specification-side definitions, written from the spec's words, against
which `analyzeImage` is compared. -/

/-- The arithmetic mean of a list of rationals. -/
def specMean (l : List ℚ) : ℚ := l.sum / ratOfNat l.length

/-- The quantity `E[L²] − E[L]²`, the population variance as the spec states it. -/
def specPopVariance (l : List ℚ) : ℚ :=
  specMean (l.map (fun x => x * x)) - specMean l * specMean l

/-- The grayscale intensity `I(x, y)` of a row-major image. -/
def intensity (img : GrayImage) (x y : Nat) : ℤ :=
  px img.data (y * img.width + x)

/-- The spec's Laplacian
`L(x,y) = -4·I(x,y) + I(x-1,y) + I(x+1,y) + I(x,y-1) + I(x,y+1)`. -/
def specLaplacian (img : GrayImage) (x y : Nat) : ℤ :=
  -4 * intensity img x y + intensity img (x - 1) y + intensity img (x + 1) y +
    intensity img x (y - 1) + intensity img x (y + 1)

/-- The spec's Laplacian responses over all interior pixels. -/
def specLapValues (img : GrayImage) : List ℚ :=
  (interiorPoints img.width img.height).map fun p =>
    ratOfInt (specLaplacian img p.1 p.2)

/-! ## Data model (`apps/api/src/types.ts`, Prisma rows as loaded in `media.ts`) -/

/-- A ScanImage row as `ingestScanMedia` sees it (`include: { images: true }`):
nullable columns are `Option`s. -/
structure ScanImage where
  id : String
  angle : ScanAngle
  storageKey : Option String
  url : Option String
  checksum : Option String
  blurScore : Option ℚ
  lightScore : Option ℚ
  poseOk : Option Bool
  landmarks : Option Landmarks
deriving DecidableEq

/-- A Scan row together with its images. -/
structure Scan where
  id : String
  patientId : String
  status : ScanStatus
  qualityFlags : List String
  missingAngles : List ScanAngle
  images : List ScanImage
deriving DecidableEq

/-! ## IngestionOrchestrator (`ingestScanMedia`, `media.ts` lines 196–299) -/

/-- The duck-typed `object.Body` returned by S3 (`media.ts` lines 221–227):
a `Buffer`, a `Uint8Array`, a readable stream (carrying the bytes that
`streamToBuffer` would collect), a null/undefined body, or any other
unrecognized shape. -/
inductive StorageBody where
  | buffer (bytes : List Nat)
  | byteArray (bytes : List Nat)
  | stream (bytes : List Nat)
  | nullBody
  | unrecognized
deriving DecidableEq

/-- Outcome of `s3.send(new GetObjectCommand(...))`: a response body, or a
thrown exception (caught by the per-image `catch`). -/
inductive FetchOutcome where
  | success (body : StorageBody)
  | throwErr
deriving DecidableEq

/-- Outcome of `sharp(buffer).grayscale().raw().toBuffer(...)`: a decoded
grayscale image, or a thrown decode error. -/
inductive DecodeOutcome where
  | ok (image : GrayImage)
  | throwErr

/-- The external collaborators of `ingestScanMedia`: object storage, node's
sha-256 (`createHash("sha256")...digest("hex")`) over bytes and over text,
base64 encoding (`buffer.toString("base64")`), sharp's decoder, and whether
the per-image `prisma.scanImage.update` throws (keyed by the image id). -/
structure IngestEnv where
  fetch : String → FetchOutcome
  sha256HexOfBytes : List Nat → String
  sha256HexOfText : String → String
  base64Of : List Nat → String
  decode : List Nat → DecodeOutcome
  persistThrows : String → Bool

/-- From `media.ts` lines 221–236: normalize the response body to a byte sequence;
a null body or an unrecognized shape yields nothing. -/
def bodyBytes : StorageBody → Option (List Nat)
  | .buffer bytes => some bytes
  | .byteArray bytes => some bytes
  | .stream bytes => some bytes
  | .nullBody => none
  | .unrecognized => none

/-- ChecksumVerifier, `media.ts` lines 237–248: compute the raw-bytes digest
and the digest of the base64 text, and flag a mismatch when the client
checksum is truthy (in JavaScript the empty string is falsy) and differs from
both. -/
def checksumFlags (env : IngestEnv) (image : ScanImage) (buffer : List Nat) :
    List String :=
  match image.checksum with
  | some c =>
      if c ≠ "" ∧ c ≠ env.sha256HexOfBytes buffer ∧
          c ≠ env.sha256HexOfText (env.base64Of buffer) then
        [flagFor "checksum_mismatch" image.angle]
      else []
  | none => []

/-- From `media.ts` lines 251–259: the per-image quality flags derived from the
analysis scores. -/
def analysisFlags (image : ScanImage) (analysis : QualityResult) : List String :=
  (if analysis.blurScore < BLUR_THRESHOLD then [flagFor "blur" image.angle] else []) ++
    (if analysis.lightScore < LIGHT_THRESHOLD then [flagFor "low_light" image.angle]
      else []) ++
    (if analysis.poseOk = false then [flagFor "pose" image.angle] else [])

/-- From `media.ts` lines 261–269: persist the computed scores onto the row. -/
def applyAnalysis (image : ScanImage) (analysis : QualityResult) : ScanImage :=
  { image with
      blurScore := some analysis.blurScore
      lightScore := some analysis.lightScore
      poseOk := some analysis.poseOk
      landmarks := some analysis.landmarks }

/-- One iteration of the per-image loop (`media.ts` lines 207–273): returns the
flags added for this image (in insertion order) and the resulting row. A
thrown exception after some flags were already added keeps those flags — the
`catch` only appends `processing_error:<angle>`. -/
def processImage (env : IngestEnv) (image : ScanImage) : List String × ScanImage :=
  match image.storageKey with
  | none => ([flagFor "missing_storage" image.angle], image)
  | some key =>
    match env.fetch key with
    | .throwErr => ([flagFor "processing_error" image.angle], image)
    | .success body =>
      match bodyBytes body with
      | none => ([flagFor "missing_object" image.angle], image)
      | some buffer =>
        let csFlags := checksumFlags env image buffer
        match env.decode buffer with
        | .throwErr => (csFlags ++ [flagFor "processing_error" image.angle], image)
        | .ok gray =>
          let analysis := analyzeImage gray
          let qFlags := analysisFlags image analysis
          if env.persistThrows image.id then
            (csFlags ++ qFlags ++ [flagFor "processing_error" image.angle], image)
          else
            (csFlags ++ qFlags, applyAnalysis image analysis)

/-- JavaScript `Set.add`: insert preserving first-insertion order, collapsing duplicates. -/
def setAdd (acc : List String) (flag : String) : List String :=
  if flag ∈ acc then acc else acc ++ [flag]

/-- Add a run of flags to the set. -/
def setAddAll (acc : List String) (flags : List String) : List String :=
  flags.foldl setAdd acc

/-- The orchestrator `ingestScanMedia`, `media.ts` lines 196–299, for the scan found by
`findUnique` (a missing scan throws `Scan not found` before any effect). -/
def ingestScanMedia (env : IngestEnv) (scan : Scan) : Scan :=
  let results := scan.images.map (processImage env)
  let perImageFlags := (results.map Prod.fst).flatten
  let missingAngles := REQUIRED_ANGLES.filter
      (fun a => !(scan.images.any (fun image => image.angle == a)))
  let missingFlags := missingAngles.map (flagFor "missing_angle")
  let qualityFlags := setAddAll [] (perImageFlags ++ missingFlags)
  { scan with
      qualityFlags := qualityFlags
      missingAngles := missingAngles
      status := resolveStatus qualityFlags missingAngles
      images := results.map Prod.snd }

/-! Reachability predicates describing how far the per-image loop gets. -/

/-- The object fetch threw. -/
def fetchThrew (env : IngestEnv) (image : ScanImage) : Prop :=
  ∃ key, image.storageKey = some key ∧ env.fetch key = .throwErr

/-- The loop obtained a normalized byte buffer for this image. -/
def gotBytes (env : IngestEnv) (image : ScanImage) (buffer : List Nat) : Prop :=
  ∃ key body, image.storageKey = some key ∧ env.fetch key = .success body ∧
    bodyBytes body = some buffer

/-- The loop decoded this image's bytes into a grayscale image. -/
def decoded (env : IngestEnv) (image : ScanImage) (gray : GrayImage) : Prop :=
  ∃ buffer, gotBytes env image buffer ∧ env.decode buffer = .ok gray

/-- A recorded front image pointing at key `k`. -/
def imgFrontK : ScanImage :=
  ⟨"img1", .front, some "k", none, none, none, none, none, none⟩

/-- A scan holding just `imgFrontK`. -/
def scanFrontK : Scan := ⟨"s1", "p1", .pending, [], [], [imgFrontK]⟩

/-- Storage answers every key with a null body. -/
def envNullBody : IngestEnv :=
  { fetch := fun _ => .success .nullBody
    sha256HexOfBytes := fun _ => "aa"
    sha256HexOfText := fun _ => "bb"
    base64Of := fun _ => "AQID"
    decode := fun _ => .throwErr
    persistThrows := fun _ => false }

/-- Ingestion environment with fixed digests `"aa"`/`"bb"`. -/
def envFixedDigest : IngestEnv :=
  { fetch := fun _ => .success (.buffer [1, 2, 3])
    sha256HexOfBytes := fun _ => "aa"
    sha256HexOfText := fun _ => "bb"
    base64Of := fun _ => "AQID"
    decode := fun _ => .throwErr
    persistThrows := fun _ => false }

/-- A recorded image declaring checksum `"zz"`, matching neither digest. -/
def imgBadCk : ScanImage :=
  ⟨"img1", .front, some "k", none, some "zz", none, none, none, none⟩

/-- An image whose client checksum is the empty string. -/
def imgEmptyCk : ScanImage :=
  ⟨"img1", .front, some "k", none, some "", none, none, none, none⟩

/-- Storage serves every key the byte `[1]`; digests are fixed. -/
def envOkFetch : IngestEnv :=
  { fetch := fun _ => .success (.buffer [1])
    sha256HexOfBytes := fun _ => "aa"
    sha256HexOfText := fun _ => "bb"
    base64Of := fun _ => "AQ=="
    decode := fun _ => .throwErr
    persistThrows := fun _ => false }

/-- Same storage, but fetching key `k1` throws. -/
def envFailK1 : IngestEnv :=
  { envOkFetch with
      fetch := fun k => if k = "k1" then .throwErr else .success (.buffer [1]) }

def imgOnK1 : ScanImage := ⟨"a", .front, some "k1", none, none, none, none, none, none⟩

def imgOnK2 : ScanImage := ⟨"b", .left, some "k2", none, none, none, none, none, none⟩

def scanTwoKeys : Scan := ⟨"s1", "p1", .pending, [], [], [imgOnK1, imgOnK2]⟩

/-! ## UploadTargetIssuer (`createUploadUrls`, `media.ts` lines 134–194) -/

structure UploadAngleRequest where
  angle : ScanAngle
  contentType : String
  checksum : Option String
deriving DecidableEq

structure UploadUrlResult where
  angle : ScanAngle
  uploadUrl : String
  storageKey : String
  url : String
deriving DecidableEq

/-- S3 configuration visible to the issuer: bucket name and the optional
public base url. -/
structure S3Config where
  bucket : String
  publicBaseUrl : Option String

/-- The presigned-PUT-url capability (`getSignedUrl` with a 900 s expiry),
taking the storage key and content type, together with the persistence layer's
id generation for freshly created ScanImage rows. -/
structure IssuerEnv where
  signUrl : String → String → String
  newId : String → ScanAngle → String

/-- Substring test over character lists (JavaScript `String.prototype.includes`). -/
def containsSub (pat : List Char) : List Char → Bool
  | [] => pat.isEmpty
  | c :: rest => List.isPrefixOf pat (c :: rest) || containsSub pat rest

/-- JavaScript `type.includes(pat)`. -/
def strIncludes (s pat : String) : Bool :=
  containsSub pat.data s.data

/-- From `media.ts` lines 60–64: derive the file extension from the content type by
substring match, defaulting to `jpg`. -/
def extensionForContentType (type : String) : String :=
  if strIncludes type "png" then "png"
  else if strIncludes type "webp" then "webp"
  else "jpg"

/-- From `media.ts` lines 66–68: the deterministic storage key
`` `scans/${patientId}/${scanId}/${angle}.${ext}` ``. -/
def keyForAngle (scanId patientId : String) (angle : ScanAngle) (ext : String) :
    String :=
  "scans/" ++ patientId ++ "/" ++ scanId ++ "/" ++ angleKey angle ++ "." ++ ext

/-- From `media.ts` line 55: strip trailing slashes from the public base url
(`replace(/\/+$/, "")`). -/
def stripTrailingSlashes (s : String) : String :=
  String.mk ((s.data.reverse.dropWhile (fun c => c = '/')).reverse)

/-- From `media.ts` lines 53–58: the public/display URL for a storage key. -/
def buildPublicUrl (cfg : S3Config) (key : String) : String :=
  match cfg.publicBaseUrl with
  | some base => stripTrailingSlashes base ++ "/" ++ key
  | none => "s3://" ++ cfg.bucket ++ "/" ++ key

/-- From `media.ts` lines 161–175: `prisma.scanImage.upsert` keyed by
`(scanId, angle)`. Prisma field semantics: in the `update` branch a field whose
value is `undefined` (an absent optional checksum) is left unchanged, while in
the `create` branch an omitted optional column is stored as NULL. -/
def upsertScanImage (env : IssuerEnv) (scanId : String) (images : List ScanImage)
    (angle : ScanAngle) (storageKey url : String) (checksum : Option String) :
    List ScanImage :=
  if images.any (fun image => image.angle == angle) then
    images.map fun image =>
      if image.angle == angle then
        { image with
            storageKey := some storageKey
            url := some url
            checksum :=
              match checksum with
              | some c => some c
              | none => image.checksum }
      else image
  else
    images ++
      [{ id := env.newId scanId angle
         angle := angle
         storageKey := some storageKey
         url := some url
         checksum := checksum
         blurScore := none
         lightScore := none
         poseOk := none
         landmarks := none }]

/-- One iteration of the issuance loop (`media.ts` lines 146–178). -/
def issueStep (cfg : S3Config) (env : IssuerEnv) (scan : Scan)
    (acc : List ScanImage × List UploadUrlResult) (item : UploadAngleRequest) :
    List ScanImage × List UploadUrlResult :=
  let ext := extensionForContentType item.contentType
  let storageKey := keyForAngle scan.id scan.patientId item.angle ext
  let uploadUrl := env.signUrl storageKey item.contentType
  let url := buildPublicUrl cfg storageKey
  (upsertScanImage env scan.id acc.1 item.angle storageKey url item.checksum,
   acc.2 ++ [{ angle := item.angle, uploadUrl := uploadUrl,
               storageKey := storageKey, url := url }])

/-- The issuer `createUploadUrls`, `media.ts` lines 134–194, for the scan found by
`findUnique` (a missing scan throws before any effect): upsert a row per item,
then recompute `missingAngles` over the scan's full current row set. -/
def createUploadUrls (cfg : S3Config) (env : IssuerEnv) (scan : Scan)
    (items : List UploadAngleRequest) : Scan × List UploadUrlResult :=
  let acc := items.foldl (issueStep cfg env scan) (scan.images, [])
  let missingAngles := REQUIRED_ANGLES.filter
      (fun a => !(acc.1.any (fun image => image.angle == a)))
  ({ scan with images := acc.1, missingAngles := missingAngles }, acc.2)

/-- A sequence of issuance calls against the same scan. -/
def runCalls (cfg : S3Config) (env : IssuerEnv) (scan : Scan)
    (calls : List (List UploadAngleRequest)) : Scan :=
  calls.foldl (fun s call => (createUploadUrls cfg env s call).1) scan

/-- Scan with a single front image, no storage key yet. -/
def scanFrontOnly : Scan :=
  ⟨"s1", "p1", .pending, [], [],
   [⟨"img1", .front, none, none, none, none, none, none, none⟩]⟩

/-- Issuer environment fixtures. -/
def issuerEnvW : IssuerEnv :=
  { signUrl := fun _ _ => "signed", newId := fun _ _ => "new" }

def s3ConfigW : S3Config := { bucket := "skinsage", publicBaseUrl := none }

/-! ## Upsert semantics for checksums (C8) -/

/-- The ScanImage rows recorded for a given angle. -/
def rowsAt (images : List ScanImage) (a : ScanAngle) : List ScanImage :=
  images.filter (fun image => image.angle == a)

/-- The checksum on file for an angle before any issuance call. -/
def initialChecksum (images : List ScanImage) (a : ScanAngle) : Option String :=
  match rowsAt images a with
  | [] => none
  | row :: _ => row.checksum

/-- Stated from the amended claim: the most recently supplied checksum for an
angle across a run of items — an item that omits its checksum leaves the
accumulated value in place. -/
def latestChecksum (init : Option String) (a : ScanAngle)
    (items : List UploadAngleRequest) : Option String :=
  items.foldl
    (fun acc item =>
      if item.angle == a then
        match item.checksum with
        | some c => some c
        | none => acc
      else acc)
    init

/-- The row upsert a single issuance item performs (`media.ts` lines 146–175,
first component of the loop body). -/
def upsertForItem (cfg : S3Config) (env : IssuerEnv) (scan : Scan)
    (images : List ScanImage) (item : UploadAngleRequest) : List ScanImage :=
  upsertScanImage env scan.id images item.angle
    (keyForAngle scan.id scan.patientId item.angle
      (extensionForContentType item.contentType))
    (buildPublicUrl cfg
      (keyForAngle scan.id scan.patientId item.angle
        (extensionForContentType item.contentType)))
    item.checksum

/-- A scan with no recorded images yet. -/
def scanNoImages : Scan := ⟨"s1", "p1", .pending, [], [], []⟩

/-! ## Theorems -/

theorem mem_angleList (a : ScanAngle) : a ∈ angleList := by
  cases a <;> simp [angleList]

/-- Two interpolated flags built from the emitted kinds coincide exactly when
kind and angle coincide, and a flag determines whether it starts with
`checksum_mismatch` by its kind alone: checked by evaluation over the finite
kind and angle enumerations. -/
theorem flag_discrimination :
    (flagKinds.all fun k => flagKinds.all fun l => angleList.all fun a =>
      angleList.all fun b =>
        ((flagFor k a == flagFor l b) == (k == l && a == b)) &&
        (strStartsWith (flagFor k a) "checksum_mismatch" == (k == "checksum_mismatch"))) =
      true := by decide

theorem flagFor_eq_iff {k l : String} (a b : ScanAngle)
    (hk : k ∈ flagKinds) (hl : l ∈ flagKinds) :
    flagFor k a = flagFor l b ↔ k = l ∧ a = b := by
  have h := flag_discrimination
  rw [List.all_eq_true] at h
  have h1 := h k hk
  rw [List.all_eq_true] at h1
  have h2 := h1 l hl
  rw [List.all_eq_true] at h2
  have h3 := h2 a (mem_angleList a)
  rw [List.all_eq_true] at h3
  have h4 := h3 b (mem_angleList b)
  simp only [Bool.and_eq_true, beq_iff_eq] at h4
  obtain ⟨h5, -⟩ := h4
  constructor
  · intro he
    have : (flagFor k a == flagFor l b) = true := beq_iff_eq.mpr he
    rw [this] at h5
    have := (beq_iff_eq (a := k) (b := l))
    rcases Bool.and_eq_true _ _ |>.mp h5.symm with ⟨hkl, hab⟩
    exact ⟨beq_iff_eq.mp hkl, beq_iff_eq.mp hab⟩
  · rintro ⟨rfl, rfl⟩
    rfl

theorem flagFor_startsWith {k : String} (a : ScanAngle) (hk : k ∈ flagKinds) :
    strStartsWith (flagFor k a) "checksum_mismatch" = (k == "checksum_mismatch") := by
  have h := flag_discrimination
  rw [List.all_eq_true] at h
  have h1 := h k hk
  rw [List.all_eq_true] at h1
  have h2 := h1 k hk
  rw [List.all_eq_true] at h2
  have h3 := h2 a (mem_angleList a)
  rw [List.all_eq_true] at h3
  have h4 := h3 a (mem_angleList a)
  simp only [Bool.and_eq_true, beq_iff_eq] at h4
  exact h4.2

/-- C1: for every flag set and missing-angle set handed to StatusResolver:
any flag with prefix `checksum_mismatch` forces `rejected`; otherwise a
non-empty missing-angle list gives `processing`; otherwise `complete`; and a
flag set consisting solely of `blur`/`low_light`/`pose` flags never prevents
`complete`. -/
theorem statusResolver_spec (qualityFlags : List String)
    (missingAngles : List ScanAngle) :
    ((∃ f ∈ qualityFlags, strStartsWith f "checksum_mismatch" = true) →
      resolveStatus qualityFlags missingAngles = .rejected) ∧
    ((∀ f ∈ qualityFlags, strStartsWith f "checksum_mismatch" = false) →
      missingAngles ≠ [] → resolveStatus qualityFlags missingAngles = .processing) ∧
    ((∀ f ∈ qualityFlags, strStartsWith f "checksum_mismatch" = false) →
      missingAngles = [] → resolveStatus qualityFlags missingAngles = .complete) ∧
    ((∀ f ∈ qualityFlags, ∃ a : ScanAngle,
        f = flagFor "blur" a ∨ f = flagFor "low_light" a ∨ f = flagFor "pose" a) →
      missingAngles = [] → resolveStatus qualityFlags missingAngles = .complete) ∧
    (∀ (env : IngestEnv) (scan : Scan),
      (ingestScanMedia env scan).status =
        resolveStatus (ingestScanMedia env scan).qualityFlags
          (ingestScanMedia env scan).missingAngles) := by
  have hmem : ∀ f ∈ qualityFlags,
      (∃ a : ScanAngle, f = flagFor "blur" a ∨ f = flagFor "low_light" a ∨
        f = flagFor "pose" a) →
      strStartsWith f "checksum_mismatch" = false := by
    rintro f - ⟨a, h | h | h⟩ <;> subst h
    · exact (flagFor_startsWith (k := "blur") a (by simp [flagKinds])).trans (by decide)
    · exact (flagFor_startsWith (k := "low_light") a (by simp [flagKinds])).trans
        (by decide)
    · exact (flagFor_startsWith (k := "pose") a (by simp [flagKinds])).trans (by decide)
  refine ⟨?_, ?_, ?_, ?_, fun env scan => rfl⟩
  · rintro ⟨f, hf, hs⟩
    have : hasChecksumMismatch qualityFlags = true := by
      simp only [hasChecksumMismatch, List.any_eq_true]
      exact ⟨f, hf, hs⟩
    simp [resolveStatus, this]
  · intro hnone hne
    have : hasChecksumMismatch qualityFlags = false := by
      simp only [hasChecksumMismatch, List.any_eq_false]
      intro f hf
      simp [hnone f hf]
    have hlen : 0 < missingAngles.length := List.length_pos.mpr hne
    simp [resolveStatus, this, hlen]
  · intro hnone hemp
    have : hasChecksumMismatch qualityFlags = false := by
      simp only [hasChecksumMismatch, List.any_eq_false]
      intro f hf
      simp [hnone f hf]
    simp [resolveStatus, this, hemp]
  · intro hshape hemp
    have : hasChecksumMismatch qualityFlags = false := by
      simp only [hasChecksumMismatch, List.any_eq_false]
      intro f hf
      simp [hmem f hf (hshape f hf)]
    simp [resolveStatus, this, hemp]

/-- Witness for `statusResolver_spec` at concrete inputs. -/
theorem statusResolver_spec_witness :
    resolveStatus ["checksum_mismatch:front"] [ScanAngle.left] = .rejected ∧
    resolveStatus ["blur:front", "low_light:left", "pose:front"] [] = .complete := by
  constructor
  · exact (statusResolver_spec ["checksum_mismatch:front"] [ScanAngle.left]).1
      ⟨"checksum_mismatch:front", by simp, by decide⟩
  · exact (statusResolver_spec ["blur:front", "low_light:left", "pose:front"] []).2.2.2.1
      (by
        intro f hf
        simp only [List.mem_cons, List.not_mem_nil, or_false] at hf
        rcases hf with rfl | rfl | rfl
        · exact ⟨.front, Or.inl rfl⟩
        · exact ⟨.left, Or.inr (Or.inl rfl)⟩
        · exact ⟨.front, Or.inr (Or.inr rfl)⟩)
      rfl

theorem mem_interiorPoints {width height : Nat} {p : Nat × Nat}
    (hp : p ∈ interiorPoints width height) :
    1 ≤ p.1 ∧ p.1 < width - 1 ∧ 1 ≤ p.2 ∧ p.2 < height - 1 ∧
      3 ≤ width ∧ 3 ≤ height := by
  obtain ⟨x, y⟩ := p
  simp only [interiorPoints, List.mem_flatMap, List.mem_map, List.mem_range'] at hp
  obtain ⟨y', hy', x', hx', he⟩ := hp
  obtain ⟨rfl, rfl⟩ : x' = x ∧ y' = y := by
    exact ⟨congrArg Prod.fst he, congrArg Prod.snd he⟩
  simp only
  omega

theorem lapAt_eq_specLaplacian (img : GrayImage) {p : Nat × Nat}
    (hp : p ∈ interiorPoints img.width img.height) :
    lapAt img.data img.width p = specLaplacian img p.1 p.2 := by
  obtain ⟨hx1, hx2, hy1, hy2, hw, hh⟩ := mem_interiorPoints hp
  obtain ⟨x, y⟩ := p
  simp only at hx1 hx2 hy1 hy2
  have e1 : y * img.width + x - img.width = (y - 1) * img.width + x := by
    have : 1 * img.width ≤ y * img.width := Nat.mul_le_mul_right _ hy1
    rw [Nat.sub_mul]
    omega
  have e2 : y * img.width + x + img.width = (y + 1) * img.width + x := by
    rw [Nat.add_mul]
    omega
  have e3 : y * img.width + x - 1 = y * img.width + (x - 1) := by omega
  have e4 : y * img.width + x + 1 = y * img.width + (x + 1) := by omega
  simp only [lapAt, specLaplacian, intensity, e1, e2, e3, e4]
  ring

theorem ratOfInt_listSum (l : List ℤ) : (l.map ratOfInt).sum = ratOfInt l.sum := by
  induction l with
  | nil => simp [ratOfInt]
  | cons x xs ih => simp only [List.map_cons, List.sum_cons, ih, ratOfInt, Int.cast_add]

theorem ratOfNat_listSum (l : List Nat) : (l.map ratOfNat).sum = ratOfNat l.sum := by
  induction l with
  | nil => simp [ratOfNat]
  | cons x xs ih => simp only [List.map_cons, List.sum_cons, ih, ratOfNat, Nat.cast_add]

theorem ratOfInt_listSum_sq (l : List ℤ) :
    ((l.map ratOfInt).map (fun x => x * x)).sum = ratOfInt ((l.map (fun x => x * x)).sum) := by
  induction l with
  | nil => simp [ratOfInt]
  | cons x xs ih =>
      simp only [List.map_cons, List.sum_cons, ih, ratOfInt, Int.cast_add, Int.cast_mul]

theorem specLapValues_eq (img : GrayImage) :
    specLapValues img =
      ((interiorPoints img.width img.height).map (lapAt img.data img.width)).map
        ratOfInt := by
  rw [specLapValues, List.map_map]
  refine List.map_congr_left fun p hp => ?_
  simp [Function.comp, lapAt_eq_specLaplacian img hp]

/-- The code's guarded-division variance formula agrees with the spec's
`E[L²] − E[L]²` over the same value list (both are `0` for an empty list). -/
theorem codeVariance_eq_specPopVariance (l : List ℤ) :
    ratOfInt ((l.map (fun x => x * x)).sum) / ratOfNat (max l.length 1) -
      ratOfInt l.sum / ratOfNat (max l.length 1) *
        (ratOfInt l.sum / ratOfNat (max l.length 1)) =
    specPopVariance (l.map ratOfInt) := by
  rcases Nat.eq_zero_or_pos l.length with h0 | hpos
  · obtain rfl : l = [] := List.length_eq_zero.mp h0
    simp [specPopVariance, specMean, ratOfInt, ratOfNat]
  · rw [Nat.max_eq_left hpos]
    simp only [specPopVariance, specMean]
    rw [ratOfInt_listSum_sq, ratOfInt_listSum, List.length_map, List.length_map]

theorem px_const {data : List Nat} {c : Nat} (hc : ∀ v ∈ data, v = c) {i : Nat}
    (hi : i < data.length) : px data i = (c : ℤ) := by
  rw [px, List.getD_eq_getElem data 0 hi]
  exact_mod_cast congrArg (Nat.cast (R := ℤ)) (hc _ (List.getElem_mem hi))

theorem lapAt_const {img : GrayImage} {c : Nat}
    (hsize : img.data.length = img.width * img.height)
    (hc : ∀ v ∈ img.data, v = c) {p : Nat × Nat}
    (hp : p ∈ interiorPoints img.width img.height) :
    lapAt img.data img.width p = 0 := by
  obtain ⟨hx1, hx2, hy1, hy2, hw, hh⟩ := mem_interiorPoints hp
  obtain ⟨x, y⟩ := p
  simp only at hx1 hx2 hy1 hy2
  have h1 : (y + 1) * img.width ≤ (img.height - 1) * img.width :=
    Nat.mul_le_mul_right _ (by omega)
  have e1 : (y + 1) * img.width = y * img.width + img.width := by ring
  have e2 : (img.height - 1) * img.width = img.height * img.width - img.width := by
    rw [Nat.sub_mul, one_mul]
  have e3 : img.width * img.height = img.height * img.width := Nat.mul_comm _ _
  have key : y * img.width + x + img.width < img.data.length := by
    rw [hsize]
    omega
  rw [lapAt]
  dsimp only
  rw [px_const hc (by omega), px_const hc (by omega), px_const hc (by omega),
    px_const hc (by omega), px_const hc (by omega)]
  ring

/-- C6: `lightScore` is the arithmetic mean of all grayscale samples,
`blurScore` is the population variance `E[L²] − E[L]²` of the spec's discrete
Laplacian over all interior pixels, and a constant-intensity image yields
`blurScore = 0`. -/
theorem qualityAnalyzer_spec (img : GrayImage)
    (hsize : img.data.length = img.width * img.height) :
    (analyzeImage img).lightScore = specMean (img.data.map ratOfNat) ∧
    (analyzeImage img).blurScore = specPopVariance (specLapValues img) ∧
    ∀ c : Nat, (∀ v ∈ img.data, v = c) → (analyzeImage img).blurScore = 0 := by
  have hlight : (analyzeImage img).lightScore =
      ratOfNat img.data.sum / ratOfNat (img.width * img.height) := rfl
  have hblur : (analyzeImage img).blurScore =
      ratOfInt ((((interiorPoints img.width img.height).map
            (lapAt img.data img.width)).map (fun x => x * x)).sum) /
          ratOfNat (max ((interiorPoints img.width img.height).map
            (lapAt img.data img.width)).length 1) -
        ratOfInt ((interiorPoints img.width img.height).map
            (lapAt img.data img.width)).sum /
            ratOfNat (max ((interiorPoints img.width img.height).map
              (lapAt img.data img.width)).length 1) *
          (ratOfInt ((interiorPoints img.width img.height).map
              (lapAt img.data img.width)).sum /
            ratOfNat (max ((interiorPoints img.width img.height).map
              (lapAt img.data img.width)).length 1)) := rfl
  refine ⟨?_, ?_, ?_⟩
  · rw [hlight, specMean, ratOfNat_listSum, List.length_map, hsize]
  · rw [hblur, specLapValues_eq, codeVariance_eq_specPopVariance]
  · intro c hc
    have hz : ∀ z ∈ (interiorPoints img.width img.height).map
        (lapAt img.data img.width), z = 0 := by
      intro z hz
      obtain ⟨p, hp, rfl⟩ := List.mem_map.mp hz
      exact lapAt_const hsize hc hp
    have hsum : ((interiorPoints img.width img.height).map
        (lapAt img.data img.width)).sum = 0 := List.sum_eq_zero hz
    have hsq : ((((interiorPoints img.width img.height).map
        (lapAt img.data img.width)).map (fun x => x * x)).sum) = 0 := by
      refine List.sum_eq_zero ?_
      intro z hzz
      obtain ⟨w, hw, rfl⟩ := List.mem_map.mp hzz
      rw [hz w hw]
      ring
    rw [hblur, hsum, hsq]
    simp [ratOfInt]

/-- Witness for `qualityAnalyzer_spec`: a flat 3×3 image of intensity 7 has
zero blur score. -/
theorem qualityAnalyzer_spec_witness :
    (analyzeImage ⟨3, 3, List.replicate 9 7⟩).blurScore = 0 :=
  (qualityAnalyzer_spec ⟨3, 3, List.replicate 9 7⟩ (by decide)).2.2 7 (by decide)

/-- C10: an image whose width or height is at most 2 has no interior pixels;
the Laplacian loop runs zero times, the `Math.max(count, 1)` guard keeps the
divisor at 1, and `blurScore` is 0 (not a division by zero). -/
theorem analyzeImage_degenerate (img : GrayImage)
    (hsmall : img.width ≤ 2 ∨ img.height ≤ 2) :
    interiorPoints img.width img.height = [] ∧
    max ((interiorPoints img.width img.height).map (lapAt img.data img.width)).length
      1 = 1 ∧
    (analyzeImage img).blurScore = 0 := by
  have hempty : interiorPoints img.width img.height = [] := by
    rcases hsmall with hw | hh
    · have : List.range' 1 (img.width - 2) = [] := by
        rw [show img.width - 2 = 0 by omega]
        rfl
      simp [interiorPoints, this]
    · have : List.range' 1 (img.height - 2) = [] := by
        rw [show img.height - 2 = 0 by omega]
        rfl
      simp [interiorPoints, this]
  refine ⟨hempty, by rw [hempty]; rfl, ?_⟩
  have hblur : (analyzeImage img).blurScore =
      ratOfInt ((((interiorPoints img.width img.height).map
            (lapAt img.data img.width)).map (fun x => x * x)).sum) /
          ratOfNat (max ((interiorPoints img.width img.height).map
            (lapAt img.data img.width)).length 1) -
        ratOfInt ((interiorPoints img.width img.height).map
            (lapAt img.data img.width)).sum /
            ratOfNat (max ((interiorPoints img.width img.height).map
              (lapAt img.data img.width)).length 1) *
          (ratOfInt ((interiorPoints img.width img.height).map
              (lapAt img.data img.width)).sum /
            ratOfNat (max ((interiorPoints img.width img.height).map
              (lapAt img.data img.width)).length 1)) := rfl
  rw [hblur, hempty]
  simp [ratOfInt]

/-- Witness for `analyzeImage_degenerate`: a 2×5 image. -/
theorem analyzeImage_degenerate_witness :
    (analyzeImage ⟨2, 5, []⟩).blurScore = 0 :=
  (analyzeImage_degenerate ⟨2, 5, []⟩ (Or.inl (by decide))).2.2

theorem mem_setAddAll (flags : List String) :
    ∀ (acc : List String) (f : String),
      f ∈ setAddAll acc flags ↔ f ∈ acc ∨ f ∈ flags := by
  induction flags with
  | nil => simp [setAddAll]
  | cons g rest ih =>
      intro acc f
      have step : setAddAll acc (g :: rest) = setAddAll (setAdd acc g) rest := rfl
      rw [step, ih]
      by_cases hg : g ∈ acc
      · simp only [setAdd, if_pos hg, List.mem_cons]
        constructor
        · rintro (h | h)
          · exact Or.inl h
          · exact Or.inr (Or.inr h)
        · rintro (h | rfl | h)
          · exact Or.inl h
          · exact Or.inl hg
          · exact Or.inr h
      · simp only [setAdd, if_neg hg, List.mem_append, List.mem_singleton,
          List.mem_cons]
        tauto

/-- Membership in the final persisted flag set, unfolded to the per-image
contributions and the missing-angle flags. -/
theorem mem_ingest_qualityFlags (env : IngestEnv) (scan : Scan) (f : String) :
    f ∈ (ingestScanMedia env scan).qualityFlags ↔
      (∃ image ∈ scan.images, f ∈ (processImage env image).1) ∨
      (∃ a ∈ (ingestScanMedia env scan).missingAngles, f = flagFor "missing_angle" a) := by
  have h1 : (ingestScanMedia env scan).qualityFlags =
      setAddAll []
        (((scan.images.map (processImage env)).map Prod.fst).flatten ++
          ((ingestScanMedia env scan).missingAngles.map (flagFor "missing_angle"))) := rfl
  rw [h1, mem_setAddAll]
  simp only [List.not_mem_nil, false_or, List.mem_append, List.mem_flatten,
    List.mem_map]
  constructor
  · rintro (⟨l, ⟨⟨pair, ⟨⟨image, himg, rfl⟩, rfl⟩⟩, hf⟩⟩ | ⟨a, ha, rfl⟩)
    · exact Or.inl ⟨image, himg, hf⟩
    · exact Or.inr ⟨a, ha, rfl⟩
  · rintro (⟨image, himg, hf⟩ | ⟨a, ha, rfl⟩)
    · exact Or.inl ⟨(processImage env image).1,
        ⟨processImage env image, ⟨image, himg, rfl⟩, rfl⟩, hf⟩
    · exact Or.inr ⟨a, ha, rfl⟩

theorem mem_ite_singleton {α : Type} (x y : α) (c : Prop) [Decidable c] :
    (x ∈ if c then [y] else []) ↔ c ∧ x = y := by
  split
  · case isTrue h => simp [h]
  · case isFalse h => simp [h]

theorem mem_analysisFlags {k : String} (hk : k ∈ flagKinds) (a : ScanAngle)
    (image : ScanImage) (an : QualityResult) :
    flagFor k a ∈ analysisFlags image an ↔
      a = image.angle ∧
        ((k = "blur" ∧ an.blurScore < BLUR_THRESHOLD) ∨
         (k = "low_light" ∧ an.lightScore < LIGHT_THRESHOLD) ∨
         (k = "pose" ∧ an.poseOk = false)) := by
  have hb := flagFor_eq_iff (k := k) (l := "blur") a image.angle hk (by simp [flagKinds])
  have hl := flagFor_eq_iff (k := k) (l := "low_light") a image.angle hk
    (by simp [flagKinds])
  have hp := flagFor_eq_iff (k := k) (l := "pose") a image.angle hk (by simp [flagKinds])
  simp only [analysisFlags, List.mem_append, mem_ite_singleton, hb, hl, hp]
  constructor
  · rintro ((⟨hc, hkk, ha⟩ | ⟨hc, hkk, ha⟩) | ⟨hc, hkk, ha⟩)
    · exact ⟨ha, Or.inl ⟨hkk, hc⟩⟩
    · exact ⟨ha, Or.inr (Or.inl ⟨hkk, hc⟩)⟩
    · exact ⟨ha, Or.inr (Or.inr ⟨hkk, hc⟩)⟩
  · rintro ⟨ha, ⟨hkk, hc⟩ | ⟨hkk, hc⟩ | ⟨hkk, hc⟩⟩
    · exact Or.inl (Or.inl ⟨hc, hkk, ha⟩)
    · exact Or.inl (Or.inr ⟨hc, hkk, ha⟩)
    · exact Or.inr ⟨hc, hkk, ha⟩

theorem mem_checksumFlags {k : String} (hk : k ∈ flagKinds) (a : ScanAngle)
    (env : IngestEnv) (image : ScanImage) (buffer : List Nat) :
    flagFor k a ∈ checksumFlags env image buffer ↔
      a = image.angle ∧ k = "checksum_mismatch" ∧
        ∃ c, image.checksum = some c ∧ c ≠ "" ∧ c ≠ env.sha256HexOfBytes buffer ∧
          c ≠ env.sha256HexOfText (env.base64Of buffer) := by
  have hcm := flagFor_eq_iff (k := k) (l := "checksum_mismatch") a image.angle hk
    (by simp [flagKinds])
  rcases hcs : image.checksum with _ | c
  · simp [checksumFlags, hcs]
  · simp only [checksumFlags, hcs]
    split_ifs with h1
    · simp only [List.mem_singleton, hcm, Option.some.injEq]
      constructor
      · rintro ⟨hkk, ha⟩
        exact ⟨ha, hkk, c, rfl, h1⟩
      · rintro ⟨ha, hkk, c', hc', -⟩
        exact ⟨hkk, ha⟩
    · simp only [List.not_mem_nil, false_iff, not_and]
      rintro - - ⟨c', hc', hne⟩
      obtain rfl : c = c' := Option.some.inj hc'
      exact h1 hne

/-- Full characterization of the flag a single per-image loop iteration can
emit, for every kind the orchestrator uses. -/
theorem mem_processImage {k : String} (hk : k ∈ flagKinds) (a : ScanAngle)
    (env : IngestEnv) (image : ScanImage) :
    flagFor k a ∈ (processImage env image).1 ↔
      a = image.angle ∧
        ((k = "missing_storage" ∧ image.storageKey = none) ∨
         (k = "processing_error" ∧
           (fetchThrew env image ∨
            (∃ buffer, gotBytes env image buffer ∧ env.decode buffer = .throwErr) ∨
            (∃ gray, decoded env image gray ∧ env.persistThrows image.id = true))) ∨
         (k = "missing_object" ∧ ∃ key body, image.storageKey = some key ∧
            env.fetch key = .success body ∧ bodyBytes body = none) ∨
         (k = "checksum_mismatch" ∧ ∃ buffer c, gotBytes env image buffer ∧
            image.checksum = some c ∧ c ≠ "" ∧ c ≠ env.sha256HexOfBytes buffer ∧
            c ≠ env.sha256HexOfText (env.base64Of buffer)) ∨
         (k = "blur" ∧ ∃ gray, decoded env image gray ∧
            (analyzeImage gray).blurScore < BLUR_THRESHOLD) ∨
         (k = "low_light" ∧ ∃ gray, decoded env image gray ∧
            (analyzeImage gray).lightScore < LIGHT_THRESHOLD) ∨
         (k = "pose" ∧ ∃ gray, decoded env image gray ∧
            (analyzeImage gray).poseOk = false)) := by
  have hms := flagFor_eq_iff (k := k) (l := "missing_storage") a image.angle hk
    (by simp [flagKinds])
  have hpe := flagFor_eq_iff (k := k) (l := "processing_error") a image.angle hk
    (by simp [flagKinds])
  have hmo := flagFor_eq_iff (k := k) (l := "missing_object") a image.angle hk
    (by simp [flagKinds])
  rcases hsk : image.storageKey with _ | key
  · have hflags : (processImage env image).1 = [flagFor "missing_storage" image.angle] := by
      simp only [processImage, hsk]
    have hgb : ∀ buf, ¬ gotBytes env image buf := by
      rintro buf ⟨key', body', hk', -⟩
      rw [hsk] at hk'
      exact Option.noConfusion hk'
    have hft : ¬ fetchThrew env image := by
      rintro ⟨key', hk', -⟩
      rw [hsk] at hk'
      exact Option.noConfusion hk'
    have hnd : ∀ g, ¬ decoded env image g := by
      rintro g ⟨buf, hb', -⟩
      exact hgb buf hb'
    rw [hflags, List.mem_singleton, hms]
    constructor
    · rintro ⟨hkk, ha⟩
      exact ⟨ha, Or.inl ⟨hkk, rfl⟩⟩
    · rintro ⟨ha, hcase⟩
      rcases hcase with ⟨hkk, -⟩ | ⟨-, h | ⟨buf, h, -⟩ | ⟨g, h, -⟩⟩ |
        ⟨-, key', body', h, -⟩ | ⟨-, buf, c, h, -⟩ | ⟨-, g, h, -⟩ | ⟨-, g, h, -⟩ |
        ⟨-, g, h, -⟩
      · exact ⟨hkk, ha⟩
      · exact absurd h hft
      · exact absurd h (hgb buf)
      · exact absurd h (hnd g)
      · exact Option.noConfusion h
      · exact absurd h (hgb buf)
      · exact absurd h (hnd g)
      · exact absurd h (hnd g)
      · exact absurd h (hnd g)
  · rcases hf : env.fetch key with body | _
    · rcases hbb : bodyBytes body with _ | buffer
      · have hflags : (processImage env image).1 =
            [flagFor "missing_object" image.angle] := by
          simp only [processImage, hsk, hf, hbb]
        have hgb : ∀ buf, ¬ gotBytes env image buf := by
          rintro buf ⟨key', body', hk', hf', hbb'⟩
          rw [hsk] at hk'
          obtain rfl : key = key' := Option.some.inj hk'
          rw [hf] at hf'
          obtain rfl : body = body' := FetchOutcome.success.inj hf'
          rw [hbb] at hbb'
          exact Option.noConfusion hbb'
        have hft : ¬ fetchThrew env image := by
          rintro ⟨key', hk', hf'⟩
          rw [hsk] at hk'
          obtain rfl : key = key' := Option.some.inj hk'
          rw [hf] at hf'
          exact FetchOutcome.noConfusion hf'
        have hnd : ∀ g, ¬ decoded env image g := by
          rintro g ⟨buf, hb', -⟩
          exact hgb buf hb'
        rw [hflags, List.mem_singleton, hmo]
        constructor
        · rintro ⟨hkk, ha⟩
          exact ⟨ha, Or.inr (Or.inr (Or.inl ⟨hkk, key, body, rfl, hf, hbb⟩))⟩
        · rintro ⟨ha, hcase⟩
          rcases hcase with ⟨-, h⟩ | ⟨-, h | ⟨buf, h, -⟩ | ⟨g, h, -⟩⟩ |
            ⟨hkk, -⟩ | ⟨-, buf, c, h, -⟩ | ⟨-, g, h, -⟩ | ⟨-, g, h, -⟩ | ⟨-, g, h, -⟩
          · exact Option.noConfusion h
          · exact absurd h hft
          · exact absurd h (hgb buf)
          · exact absurd h (hnd g)
          · exact ⟨hkk, ha⟩
          · exact absurd h (hgb buf)
          · exact absurd h (hnd g)
          · exact absurd h (hnd g)
          · exact absurd h (hnd g)
      · have hgb : ∀ buf, gotBytes env image buf ↔ buf = buffer := by
          intro buf
          constructor
          · rintro ⟨key', body', hk', hf', hbb'⟩
            rw [hsk] at hk'
            obtain rfl : key = key' := Option.some.inj hk'
            rw [hf] at hf'
            obtain rfl : body = body' := FetchOutcome.success.inj hf'
            rw [hbb] at hbb'
            exact (Option.some.inj hbb').symm
          · rintro rfl
            exact ⟨key, body, hsk, hf, hbb⟩
        have hft : ¬ fetchThrew env image := by
          rintro ⟨key', hk', hf'⟩
          rw [hsk] at hk'
          obtain rfl : key = key' := Option.some.inj hk'
          rw [hf] at hf'
          exact FetchOutcome.noConfusion hf'
        have hmo' : ¬ (∃ key' body', some key = some key' ∧
            env.fetch key' = .success body' ∧ bodyBytes body' = none) := by
          rintro ⟨key', body', hk', hf', hbb'⟩
          obtain rfl : key = key' := Option.some.inj hk'
          rw [hf] at hf'
          obtain rfl : body = body' := FetchOutcome.success.inj hf'
          rw [hbb] at hbb'
          exact Option.noConfusion hbb'
        rcases hd : env.decode buffer with gray | _
        · have hdec : ∀ g, decoded env image g ↔ g = gray := by
            intro g
            constructor
            · rintro ⟨buf, hb', hd'⟩
              rw [hgb buf] at hb'
              subst hb'
              rw [hd] at hd'
              exact (DecodeOutcome.ok.inj hd').symm
            · rintro rfl
              exact ⟨buffer, (hgb buffer).mpr rfl, hd⟩
          have hnthrow : ¬ (∃ buf, gotBytes env image buf ∧
              env.decode buf = .throwErr) := by
            rintro ⟨buf, hb', hd'⟩
            rw [hgb buf] at hb'
            subst hb'
            rw [hd] at hd'
            exact DecodeOutcome.noConfusion hd'
          rcases hp : env.persistThrows image.id with _ | _
          · have hflags : (processImage env image).1 =
                checksumFlags env image buffer ++
                  analysisFlags image (analyzeImage gray) := by
              simp only [processImage, hsk, hf, hbb, hd, hp]
              simp
            rw [hflags, List.mem_append, mem_checksumFlags hk, mem_analysisFlags hk]
            constructor
            · rintro (⟨ha, hkk, c, hcs⟩ | ⟨ha, hcase⟩)
              · exact ⟨ha, Or.inr (Or.inr (Or.inr (Or.inl
                  ⟨hkk, buffer, c, (hgb buffer).mpr rfl, hcs⟩)))⟩
              · rcases hcase with ⟨hkk, hlt⟩ | ⟨hkk, hlt⟩ | ⟨hkk, hlt⟩
                · exact ⟨ha, Or.inr (Or.inr (Or.inr (Or.inr (Or.inl
                    ⟨hkk, gray, (hdec gray).mpr rfl, hlt⟩))))⟩
                · exact ⟨ha, Or.inr (Or.inr (Or.inr (Or.inr (Or.inr (Or.inl
                    ⟨hkk, gray, (hdec gray).mpr rfl, hlt⟩)))))⟩
                · exact ⟨ha, Or.inr (Or.inr (Or.inr (Or.inr (Or.inr (Or.inr
                    ⟨hkk, gray, (hdec gray).mpr rfl, hlt⟩)))))⟩
            · rintro ⟨ha, hcase⟩
              rcases hcase with ⟨-, h⟩ | ⟨-, h | h | ⟨g, hg, hpt⟩⟩ | ⟨-, h⟩ |
                ⟨hkk, buf, c, hb', hcs⟩ | ⟨hkk, g, hg, hlt⟩ | ⟨hkk, g, hg, hlt⟩ |
                ⟨hkk, g, hg, hlt⟩
              · exact Option.noConfusion h
              · exact absurd h hft
              · exact absurd h hnthrow
              · exact Bool.noConfusion hpt
              · exact absurd h hmo'
              · rw [hgb buf] at hb'
                subst hb'
                exact Or.inl ⟨ha, hkk, c, hcs⟩
              · rw [hdec g] at hg
                subst hg
                exact Or.inr ⟨ha, Or.inl ⟨hkk, hlt⟩⟩
              · rw [hdec g] at hg
                subst hg
                exact Or.inr ⟨ha, Or.inr (Or.inl ⟨hkk, hlt⟩)⟩
              · rw [hdec g] at hg
                subst hg
                exact Or.inr ⟨ha, Or.inr (Or.inr ⟨hkk, hlt⟩)⟩
          · have hflags : (processImage env image).1 =
                checksumFlags env image buffer ++
                  analysisFlags image (analyzeImage gray) ++
                  [flagFor "processing_error" image.angle] := by
              simp only [processImage, hsk, hf, hbb, hd, hp]
              simp
            rw [hflags, List.mem_append, List.mem_append, mem_checksumFlags hk,
              mem_analysisFlags hk, List.mem_singleton, hpe]
            constructor
            · rintro ((⟨ha, hkk, c, hcs⟩ | ⟨ha, hcase⟩) | ⟨hkk, ha⟩)
              · exact ⟨ha, Or.inr (Or.inr (Or.inr (Or.inl
                  ⟨hkk, buffer, c, (hgb buffer).mpr rfl, hcs⟩)))⟩
              · rcases hcase with ⟨hkk, hlt⟩ | ⟨hkk, hlt⟩ | ⟨hkk, hlt⟩
                · exact ⟨ha, Or.inr (Or.inr (Or.inr (Or.inr (Or.inl
                    ⟨hkk, gray, (hdec gray).mpr rfl, hlt⟩))))⟩
                · exact ⟨ha, Or.inr (Or.inr (Or.inr (Or.inr (Or.inr (Or.inl
                    ⟨hkk, gray, (hdec gray).mpr rfl, hlt⟩)))))⟩
                · exact ⟨ha, Or.inr (Or.inr (Or.inr (Or.inr (Or.inr (Or.inr
                    ⟨hkk, gray, (hdec gray).mpr rfl, hlt⟩)))))⟩
              · exact ⟨ha, Or.inr (Or.inl ⟨hkk, Or.inr (Or.inr
                  ⟨gray, (hdec gray).mpr rfl, rfl⟩)⟩)⟩
            · rintro ⟨ha, hcase⟩
              rcases hcase with ⟨-, h⟩ | ⟨hkk, -⟩ | ⟨-, h⟩ |
                ⟨hkk, buf, c, hb', hcs⟩ | ⟨hkk, g, hg, hlt⟩ | ⟨hkk, g, hg, hlt⟩ |
                ⟨hkk, g, hg, hlt⟩
              · exact Option.noConfusion h
              · exact Or.inr ⟨hkk, ha⟩
              · exact absurd h hmo'
              · rw [hgb buf] at hb'
                subst hb'
                exact Or.inl (Or.inl ⟨ha, hkk, c, hcs⟩)
              · rw [hdec g] at hg
                subst hg
                exact Or.inl (Or.inr ⟨ha, Or.inl ⟨hkk, hlt⟩⟩)
              · rw [hdec g] at hg
                subst hg
                exact Or.inl (Or.inr ⟨ha, Or.inr (Or.inl ⟨hkk, hlt⟩)⟩)
              · rw [hdec g] at hg
                subst hg
                exact Or.inl (Or.inr ⟨ha, Or.inr (Or.inr ⟨hkk, hlt⟩)⟩)
        · have hnd : ∀ g, ¬ decoded env image g := by
            rintro g ⟨buf, hb', hd'⟩
            rw [hgb buf] at hb'
            subst hb'
            rw [hd] at hd'
            exact DecodeOutcome.noConfusion hd'
          have hflags : (processImage env image).1 =
              checksumFlags env image buffer ++
                [flagFor "processing_error" image.angle] := by
            simp only [processImage, hsk, hf, hbb, hd]
          rw [hflags, List.mem_append, mem_checksumFlags hk, List.mem_singleton, hpe]
          constructor
          · rintro (⟨ha, hkk, c, hcs⟩ | ⟨hkk, ha⟩)
            · exact ⟨ha, Or.inr (Or.inr (Or.inr (Or.inl
                ⟨hkk, buffer, c, (hgb buffer).mpr rfl, hcs⟩)))⟩
            · exact ⟨ha, Or.inr (Or.inl ⟨hkk, Or.inr (Or.inl
                ⟨buffer, (hgb buffer).mpr rfl, hd⟩)⟩)⟩
          · rintro ⟨ha, hcase⟩
            rcases hcase with ⟨-, h⟩ | ⟨hkk, -⟩ | ⟨-, h⟩ |
              ⟨hkk, buf, c, hb', hcs⟩ | ⟨-, g, hg, -⟩ | ⟨-, g, hg, -⟩ | ⟨-, g, hg, -⟩
            · exact Option.noConfusion h
            · exact Or.inr ⟨hkk, ha⟩
            · exact absurd h hmo'
            · rw [hgb buf] at hb'
              subst hb'
              exact Or.inl ⟨ha, hkk, c, hcs⟩
            · exact absurd hg (hnd g)
            · exact absurd hg (hnd g)
            · exact absurd hg (hnd g)
    · have hflags : (processImage env image).1 =
          [flagFor "processing_error" image.angle] := by
        simp only [processImage, hsk, hf]
      have hft : fetchThrew env image := ⟨key, hsk, hf⟩
      have hgb : ∀ buf, ¬ gotBytes env image buf := by
        rintro buf ⟨key', body', hk', hf', -⟩
        rw [hsk] at hk'
        obtain rfl : key = key' := Option.some.inj hk'
        rw [hf] at hf'
        exact FetchOutcome.noConfusion hf'
      have hnd : ∀ g, ¬ decoded env image g := by
        rintro g ⟨buf, hb', -⟩
        exact hgb buf hb'
      rw [hflags, List.mem_singleton, hpe]
      constructor
      · rintro ⟨hkk, ha⟩
        exact ⟨ha, Or.inr (Or.inl ⟨hkk, Or.inl hft⟩)⟩
      · rintro ⟨ha, hcase⟩
        rcases hcase with ⟨-, h⟩ | ⟨hkk, -⟩ | ⟨-, key', body', h, hf', -⟩ |
          ⟨-, buf, c, hb', -⟩ | ⟨-, g, hg, -⟩ | ⟨-, g, hg, -⟩ | ⟨-, g, hg, -⟩
        · exact Option.noConfusion h
        · exact ⟨hkk, ha⟩
        · obtain rfl : key = key' := Option.some.inj h
          rw [hf] at hf'
          exact FetchOutcome.noConfusion hf'
        · exact absurd hb' (hgb buf)
        · exact absurd hg (hnd g)
        · exact absurd hg (hnd g)
        · exact absurd hg (hnd g)

theorem gotBytes_unique {env : IngestEnv} {image : ScanImage} {b1 b2 : List Nat}
    (h1 : gotBytes env image b1) (h2 : gotBytes env image b2) : b1 = b2 := by
  obtain ⟨k1, bo1, hk1, hf1, hb1⟩ := h1
  obtain ⟨k2, bo2, hk2, hf2, hb2⟩ := h2
  rw [hk1] at hk2
  obtain rfl : k1 = k2 := Option.some.inj hk2
  rw [hf1] at hf2
  obtain rfl : bo1 = bo2 := FetchOutcome.success.inj hf2
  rw [hb1] at hb2
  exact Option.some.inj hb2

/-- C3: a recorded image whose storage object is absent (null body) or of
unrecognized byte-stream shape gets exactly the `missing_object:<angle>` flag;
the remaining per-image steps are skipped (no other flag, row untouched), and
the flag reaches the persisted flag set. -/
theorem missingObject_spec (env : IngestEnv) (scan : Scan) (image : ScanImage)
    (key : String) (body : StorageBody)
    (hkey : image.storageKey = some key)
    (hfetch : env.fetch key = .success body)
    (habsent : body = .nullBody ∨ body = .unrecognized) :
    (processImage env image).1 = [flagFor "missing_object" image.angle] ∧
    (processImage env image).2 = image ∧
    (image ∈ scan.images →
      flagFor "missing_object" image.angle ∈ (ingestScanMedia env scan).qualityFlags) := by
  have hb : bodyBytes body = none := by
    rcases habsent with rfl | rfl <;> rfl
  have hpi : processImage env image = ([flagFor "missing_object" image.angle], image) := by
    simp only [processImage, hkey, hfetch, hb]
  refine ⟨by rw [hpi], by rw [hpi], fun himg => ?_⟩
  rw [mem_ingest_qualityFlags]
  exact Or.inl ⟨image, himg, by rw [hpi]; exact List.mem_singleton.mpr rfl⟩

/-- Witness for `missingObject_spec` at a concrete scan. -/
theorem missingObject_spec_witness :
    (processImage envNullBody imgFrontK).1 = [flagFor "missing_object" ScanAngle.front] :=
  (missingObject_spec envNullBody scanFrontK imgFrontK "k" .nullBody rfl rfl
    (Or.inl rfl)).1

/-- C2 (amended): once bytes are in hand, a `checksum_mismatch:<angle>` flag is
emitted if and only if a *non-empty* client checksum is present that differs
both from the digest of the raw bytes and from the digest of the base64 text of
those bytes; an absent client checksum never produces the flag. -/
theorem checksumVerifier_spec (env : IngestEnv) (image : ScanImage)
    (buffer : List Nat) (hbytes : gotBytes env image buffer) :
    (flagFor "checksum_mismatch" image.angle ∈ (processImage env image).1 ↔
      ∃ c, image.checksum = some c ∧ c ≠ "" ∧ c ≠ env.sha256HexOfBytes buffer ∧
        c ≠ env.sha256HexOfText (env.base64Of buffer)) ∧
    (image.checksum = none →
      flagFor "checksum_mismatch" image.angle ∉ (processImage env image).1) := by
  have hmain : flagFor "checksum_mismatch" image.angle ∈ (processImage env image).1 ↔
      ∃ c, image.checksum = some c ∧ c ≠ "" ∧ c ≠ env.sha256HexOfBytes buffer ∧
        c ≠ env.sha256HexOfText (env.base64Of buffer) := by
    rw [mem_processImage (k := "checksum_mismatch") (by simp [flagKinds])]
    constructor
    · rintro ⟨-, hcase⟩
      rcases hcase with ⟨h, -⟩ | ⟨h, -⟩ | ⟨h, -⟩ | ⟨-, buf, c, hgb', hcs⟩ |
        ⟨h, -⟩ | ⟨h, -⟩ | ⟨h, -⟩
      · exact absurd h (by decide)
      · exact absurd h (by decide)
      · exact absurd h (by decide)
      · obtain rfl : buf = buffer := gotBytes_unique hgb' hbytes
        exact ⟨c, hcs⟩
      · exact absurd h (by decide)
      · exact absurd h (by decide)
      · exact absurd h (by decide)
    · rintro ⟨c, hcs⟩
      exact ⟨rfl, Or.inr (Or.inr (Or.inr (Or.inl ⟨rfl, buffer, c, hbytes, hcs⟩)))⟩
  refine ⟨hmain, fun hnone hmem => ?_⟩
  obtain ⟨c, hc, -⟩ := hmain.mp hmem
  rw [hnone] at hc
  exact Option.noConfusion hc

/-- Witness for `checksumVerifier_spec`: with digests `"aa"`/`"bb"` and client
checksum `"zz"`, the mismatch flag is emitted. -/
theorem checksumVerifier_spec_witness :
    flagFor "checksum_mismatch" imgBadCk.angle ∈ (processImage envFixedDigest imgBadCk).1 :=
  (checksumVerifier_spec envFixedDigest imgBadCk [1, 2, 3]
      ⟨"k", .buffer [1, 2, 3], rfl, rfl, rfl⟩).1.mpr
    ⟨"zz", rfl, by decide, by decide, by decide⟩

/-- Counterexample to C2 as stated: the empty-string checksum is present
(`some ""`) and differs from both candidate digests, yet JavaScript truthiness
(`image.checksum && ...`) treats it as absent and no flag is emitted. -/
theorem checksumVerifier_claim_cex :
    imgEmptyCk.checksum = some "" ∧
    "" ≠ envFixedDigest.sha256HexOfBytes [1, 2, 3] ∧
    "" ≠ envFixedDigest.sha256HexOfText (envFixedDigest.base64Of [1, 2, 3]) ∧
    gotBytes envFixedDigest imgEmptyCk [1, 2, 3] ∧
    flagFor "checksum_mismatch" imgEmptyCk.angle ∉
      (processImage envFixedDigest imgEmptyCk).1 := by
  refine ⟨rfl, by decide, by decide, ⟨"k", .buffer [1, 2, 3], rfl, rfl, rfl⟩, ?_⟩
  decide

theorem poseOk_eq_false_iff (img : GrayImage) :
    (analyzeImage img).poseOk = false ↔
      (analyzeImage img).blurScore < BLUR_THRESHOLD ∨
      (analyzeImage img).lightScore < LIGHT_THRESHOLD := by
  have h : (analyzeImage img).poseOk =
      (decide ((analyzeImage img).blurScore ≥ BLUR_THRESHOLD) &&
        decide ((analyzeImage img).lightScore ≥ LIGHT_THRESHOLD)) := rfl
  rw [h, Bool.and_eq_false_iff]
  simp [decide_eq_false_iff_not, not_le]

/-- C7: `poseOk` holds exactly when both scores clear their thresholds
(defaults 120 and 55), and during ingestion the `pose:<angle>` flag appears in
the persisted flag set if and only if `blur:<angle>` or `low_light:<angle>`
does. -/
theorem poseFlag_spec :
    BLUR_THRESHOLD = 120 ∧ LIGHT_THRESHOLD = 55 ∧
    (∀ img : GrayImage, (analyzeImage img).poseOk = true ↔
      (analyzeImage img).blurScore ≥ BLUR_THRESHOLD ∧
      (analyzeImage img).lightScore ≥ LIGHT_THRESHOLD) ∧
    (∀ (env : IngestEnv) (scan : Scan) (a : ScanAngle),
      flagFor "pose" a ∈ (ingestScanMedia env scan).qualityFlags ↔
        (flagFor "blur" a ∈ (ingestScanMedia env scan).qualityFlags ∨
         flagFor "low_light" a ∈ (ingestScanMedia env scan).qualityFlags)) := by
  refine ⟨rfl, rfl, ?_, ?_⟩
  · intro img
    have h : (analyzeImage img).poseOk =
        (decide ((analyzeImage img).blurScore ≥ BLUR_THRESHOLD) &&
          decide ((analyzeImage img).lightScore ≥ LIGHT_THRESHOLD)) := rfl
    rw [h, Bool.and_eq_true]
    simp [decide_eq_true_iff]
  · intro env scan a
    have hscan : ∀ (k : String), k ∈ flagKinds → k ≠ "missing_angle" →
        (flagFor k a ∈ (ingestScanMedia env scan).qualityFlags ↔
          ∃ image ∈ scan.images, flagFor k a ∈ (processImage env image).1) := by
      intro k hkk hkna
      rw [mem_ingest_qualityFlags]
      constructor
      · rintro (h | ⟨a', -, heq⟩)
        · exact h
        · exact absurd ((flagFor_eq_iff a a' hkk (by simp [flagKinds])).mp heq).1 hkna
      · exact Or.inl
    have hpose : ∀ image : ScanImage,
        flagFor "pose" a ∈ (processImage env image).1 ↔
          a = image.angle ∧ ∃ gray, decoded env image gray ∧
            (analyzeImage gray).poseOk = false := by
      intro image
      rw [mem_processImage (k := "pose") (by simp [flagKinds])]
      constructor
      · rintro ⟨ha, hcase⟩
        rcases hcase with ⟨h, -⟩ | ⟨h, -⟩ | ⟨h, -⟩ | ⟨h, -⟩ | ⟨h, -⟩ | ⟨h, -⟩ |
          ⟨-, hrest⟩
        · exact absurd h (by decide)
        · exact absurd h (by decide)
        · exact absurd h (by decide)
        · exact absurd h (by decide)
        · exact absurd h (by decide)
        · exact absurd h (by decide)
        · exact ⟨ha, hrest⟩
      · rintro ⟨ha, hrest⟩
        exact ⟨ha, Or.inr (Or.inr (Or.inr (Or.inr (Or.inr (Or.inr ⟨rfl, hrest⟩)))))⟩
    have hblur : ∀ image : ScanImage,
        flagFor "blur" a ∈ (processImage env image).1 ↔
          a = image.angle ∧ ∃ gray, decoded env image gray ∧
            (analyzeImage gray).blurScore < BLUR_THRESHOLD := by
      intro image
      rw [mem_processImage (k := "blur") (by simp [flagKinds])]
      constructor
      · rintro ⟨ha, hcase⟩
        rcases hcase with ⟨h, -⟩ | ⟨h, -⟩ | ⟨h, -⟩ | ⟨h, -⟩ | ⟨-, hrest⟩ | ⟨h, -⟩ |
          ⟨h, -⟩
        · exact absurd h (by decide)
        · exact absurd h (by decide)
        · exact absurd h (by decide)
        · exact absurd h (by decide)
        · exact ⟨ha, hrest⟩
        · exact absurd h (by decide)
        · exact absurd h (by decide)
      · rintro ⟨ha, hrest⟩
        exact ⟨ha, Or.inr (Or.inr (Or.inr (Or.inr (Or.inl ⟨rfl, hrest⟩))))⟩
    have hlow : ∀ image : ScanImage,
        flagFor "low_light" a ∈ (processImage env image).1 ↔
          a = image.angle ∧ ∃ gray, decoded env image gray ∧
            (analyzeImage gray).lightScore < LIGHT_THRESHOLD := by
      intro image
      rw [mem_processImage (k := "low_light") (by simp [flagKinds])]
      constructor
      · rintro ⟨ha, hcase⟩
        rcases hcase with ⟨h, -⟩ | ⟨h, -⟩ | ⟨h, -⟩ | ⟨h, -⟩ | ⟨h, -⟩ |
          ⟨-, hrest⟩ | ⟨h, -⟩
        · exact absurd h (by decide)
        · exact absurd h (by decide)
        · exact absurd h (by decide)
        · exact absurd h (by decide)
        · exact absurd h (by decide)
        · exact ⟨ha, hrest⟩
        · exact absurd h (by decide)
      · rintro ⟨ha, hrest⟩
        exact ⟨ha, Or.inr (Or.inr (Or.inr (Or.inr (Or.inr (Or.inl ⟨rfl, hrest⟩)))))⟩
    rw [hscan "pose" (by simp [flagKinds]) (by decide),
      hscan "blur" (by simp [flagKinds]) (by decide),
      hscan "low_light" (by simp [flagKinds]) (by decide)]
    constructor
    · rintro ⟨image, himg, hmem⟩
      obtain ⟨ha, gray, hdec, hfalse⟩ := (hpose image).mp hmem
      rcases (poseOk_eq_false_iff gray).mp hfalse with h | h
      · exact Or.inl ⟨image, himg, (hblur image).mpr ⟨ha, gray, hdec, h⟩⟩
      · exact Or.inr ⟨image, himg, (hlow image).mpr ⟨ha, gray, hdec, h⟩⟩
    · rintro (⟨image, himg, hmem⟩ | ⟨image, himg, hmem⟩)
      · obtain ⟨ha, gray, hdec, h⟩ := (hblur image).mp hmem
        exact ⟨image, himg, (hpose image).mpr
          ⟨ha, gray, hdec, (poseOk_eq_false_iff gray).mpr (Or.inl h)⟩⟩
      · obtain ⟨ha, gray, hdec, h⟩ := (hlow image).mp hmem
        exact ⟨image, himg, (hpose image).mpr
          ⟨ha, gray, hdec, (poseOk_eq_false_iff gray).mpr (Or.inr h)⟩⟩

/-- Witness for `poseFlag_spec` (threshold defaults). -/
theorem poseFlag_spec_witness : BLUR_THRESHOLD = 120 ∧ LIGHT_THRESHOLD = 55 :=
  ⟨poseFlag_spec.1, poseFlag_spec.2.1⟩

/-- Per-image processing only consults the environment through the fetch of the
image's own storage key and the globally shared digest/decode/persist
capabilities. -/
theorem processImage_congr (env env' : IngestEnv) (image : ScanImage)
    (hf : ∀ k, image.storageKey = some k → env'.fetch k = env.fetch k)
    (h2 : env'.sha256HexOfBytes = env.sha256HexOfBytes)
    (h3 : env'.sha256HexOfText = env.sha256HexOfText)
    (h4 : env'.base64Of = env.base64Of)
    (h5 : env'.decode = env.decode)
    (h6 : env'.persistThrows = env.persistThrows) :
    processImage env' image = processImage env image := by
  have hcs : ∀ buffer, checksumFlags env' image buffer = checksumFlags env image buffer := by
    intro buffer
    simp only [checksumFlags, h2, h3, h4]
  rcases hsk : image.storageKey with _ | key
  · simp only [processImage, hsk]
  · simp only [processImage, hsk, hf key hsk, hcs, h5, h6]

/-- C4: an unexpected per-image failure (fetch, decode/analysis, or
persistence throwing) is absorbed as `processing_error:<angle>`:
a fetch throw yields exactly that one flag for the failed image, leaves every
other image's processing and flags untouched, and the orchestrator still
returns a result whose flag set contains the failed image's error flag plus all
other images' flags; decode and persist throws likewise surface as the
`processing_error` flag. -/
theorem failureIsolation_spec (env env' : IngestEnv) (scan : Scan) (i : Nat)
    (hi : i < scan.images.length) (key : String)
    (hkey : (scan.images.get ⟨i, hi⟩).storageKey = some key)
    (hthrow : env'.fetch key = .throwErr)
    (hsame : (∀ k, k ≠ key → env'.fetch k = env.fetch k) ∧
      env'.sha256HexOfBytes = env.sha256HexOfBytes ∧
      env'.sha256HexOfText = env.sha256HexOfText ∧
      env'.base64Of = env.base64Of ∧ env'.decode = env.decode ∧
      env'.persistThrows = env.persistThrows)
    (hothers : ∀ (j : Nat) (hj : j < scan.images.length), j ≠ i →
      (scan.images.get ⟨j, hj⟩).storageKey ≠ some key) :
    (processImage env' (scan.images.get ⟨i, hi⟩)).1 =
      [flagFor "processing_error" (scan.images.get ⟨i, hi⟩).angle] ∧
    (∀ (j : Nat) (hj : j < scan.images.length), j ≠ i →
      processImage env' (scan.images.get ⟨j, hj⟩) =
        processImage env (scan.images.get ⟨j, hj⟩)) ∧
    flagFor "processing_error" (scan.images.get ⟨i, hi⟩).angle ∈
      (ingestScanMedia env' scan).qualityFlags ∧
    (∀ (f : String) (j : Nat) (hj : j < scan.images.length), j ≠ i →
      f ∈ (processImage env (scan.images.get ⟨j, hj⟩)).1 →
      f ∈ (ingestScanMedia env' scan).qualityFlags) ∧
    (∀ (image : ScanImage) (buffer : List Nat), gotBytes env image buffer →
      env.decode buffer = .throwErr →
      flagFor "processing_error" image.angle ∈ (processImage env image).1) ∧
    (∀ (image : ScanImage) (gray : GrayImage), decoded env image gray →
      env.persistThrows image.id = true →
      flagFor "processing_error" image.angle ∈ (processImage env image).1) := by
  obtain ⟨hfsame, h2, h3, h4, h5, h6⟩ := hsame
  have hfail : (processImage env' (scan.images.get ⟨i, hi⟩)).1 =
      [flagFor "processing_error" (scan.images.get ⟨i, hi⟩).angle] := by
    simp only [processImage, hkey, hthrow]
  have hcongr : ∀ (j : Nat) (hj : j < scan.images.length), j ≠ i →
      processImage env' (scan.images.get ⟨j, hj⟩) =
        processImage env (scan.images.get ⟨j, hj⟩) := by
    intro j hj hne
    refine processImage_congr env env' _ ?_ h2 h3 h4 h5 h6
    intro k hk
    refine hfsame k ?_
    intro hkk
    subst hkk
    exact hothers j hj hne hk
  refine ⟨hfail, hcongr, ?_, ?_, ?_, ?_⟩
  · rw [mem_ingest_qualityFlags]
    refine Or.inl ⟨scan.images.get ⟨i, hi⟩, List.get_mem _ _ hi, ?_⟩
    rw [hfail]
    exact List.mem_singleton.mpr rfl
  · intro f j hj hne hf
    rw [mem_ingest_qualityFlags]
    refine Or.inl ⟨scan.images.get ⟨j, hj⟩, List.get_mem _ _ hj, ?_⟩
    rw [hcongr j hj hne]
    exact hf
  · intro image buffer hgb hdec
    rw [mem_processImage (k := "processing_error") (by simp [flagKinds])]
    exact ⟨rfl, Or.inr (Or.inl ⟨rfl, Or.inr (Or.inl ⟨buffer, hgb, hdec⟩)⟩)⟩
  · intro image gray hdec hpt
    rw [mem_processImage (k := "processing_error") (by simp [flagKinds])]
    exact ⟨rfl, Or.inr (Or.inl ⟨rfl, Or.inr (Or.inr ⟨gray, hdec, hpt⟩)⟩)⟩

/-- Witness for `failureIsolation_spec`: with key `k1` throwing, the front image
gets exactly the `processing_error` flag. -/
theorem failureIsolation_spec_witness :
    (processImage envFailK1 (scanTwoKeys.images.get ⟨0, by decide⟩)).1 =
      [flagFor "processing_error" ScanAngle.front] :=
  (failureIsolation_spec envOkFetch envFailK1 scanTwoKeys 0 (by decide) "k1" rfl
    (by decide)
    ⟨fun k hk => by simp [envFailK1, envOkFetch, hk], rfl, rfl, rfl, rfl, rfl⟩
    (by
      intro j hj hne
      rcases j with _ | _ | j
      · exact absurd rfl hne
      · exact (by decide : (some "k2" : Option String) ≠ some "k1")
      · have hlen : scanTwoKeys.images.length = 2 := rfl
        omega)).1

theorem mem_upsert_untouched (env : IssuerEnv) (sid : String)
    (images : List ScanImage) (angle : ScanAngle) (k u : String)
    (cs : Option String) (image : ScanImage) (h : image ∈ images)
    (hne : image.angle ≠ angle) :
    image ∈ upsertScanImage env sid images angle k u cs := by
  have hcond : (image.angle == angle) = false := by simp [hne]
  rw [upsertScanImage]
  split
  · refine List.mem_map.mpr ⟨image, h, ?_⟩
    simp [hcond]
  · exact List.mem_append_left _ h

theorem untouched_mem_foldl (cfg : S3Config) (env : IssuerEnv) (scan : Scan)
    (items : List UploadAngleRequest) :
    ∀ (acc : List ScanImage × List UploadUrlResult) (image : ScanImage),
      image ∈ acc.1 → (∀ item ∈ items, item.angle ≠ image.angle) →
      image ∈ (items.foldl (issueStep cfg env scan) acc).1 := by
  induction items with
  | nil =>
      intro acc image h _
      exact h
  | cons item rest ih =>
      intro acc image h hang
      have hstep : image ∈ (issueStep cfg env scan acc item).1 :=
        mem_upsert_untouched env scan.id acc.1 item.angle _ _ item.checksum image h
          (fun he => hang item (List.mem_cons_self _ _) he.symm)
      exact ih (issueStep cfg env scan acc item) image hstep
        (fun it hit => hang it (List.mem_cons_of_mem _ hit))

/-- C9: a successful issuance call leaves `status` and `qualityFlags` (and the
scan identity fields) unchanged; the only persisted effects are the upserted
image rows and `missingAngles`, which is exactly the recomputation over the
resulting rows — rows for angles not targeted by any item survive unchanged. -/
theorem uploadIssuer_frame (cfg : S3Config) (env : IssuerEnv) (scan : Scan)
    (items : List UploadAngleRequest) :
    (createUploadUrls cfg env scan items).1.status = scan.status ∧
    (createUploadUrls cfg env scan items).1.qualityFlags = scan.qualityFlags ∧
    (createUploadUrls cfg env scan items).1.id = scan.id ∧
    (createUploadUrls cfg env scan items).1.patientId = scan.patientId ∧
    (createUploadUrls cfg env scan items).1.missingAngles =
      REQUIRED_ANGLES.filter (fun a =>
        !((createUploadUrls cfg env scan items).1.images.any
          (fun image => image.angle == a))) ∧
    (∀ image ∈ scan.images, (∀ item ∈ items, item.angle ≠ image.angle) →
      image ∈ (createUploadUrls cfg env scan items).1.images) := by
  refine ⟨rfl, rfl, rfl, rfl, rfl, ?_⟩
  intro image himg hang
  exact untouched_mem_foldl cfg env scan items (scan.images, []) image himg hang

/-- Witness for `uploadIssuer_frame`: issuing for `left` leaves the untouched
front row in place, and status/qualityFlags unchanged. -/
theorem uploadIssuer_frame_witness :
    (createUploadUrls s3ConfigW issuerEnvW scanFrontOnly
      [⟨.left, "image/jpeg", none⟩]).1.status = ScanStatus.pending ∧
    ⟨"img1", .front, none, none, none, none, none, none, none⟩ ∈
      (createUploadUrls s3ConfigW issuerEnvW scanFrontOnly
        [⟨.left, "image/jpeg", none⟩]).1.images := by
  constructor
  · exact (uploadIssuer_frame s3ConfigW issuerEnvW scanFrontOnly
      [⟨.left, "image/jpeg", none⟩]).1
  · refine (uploadIssuer_frame s3ConfigW issuerEnvW scanFrontOnly
      [⟨.left, "image/jpeg", none⟩]).2.2.2.2.2
      ⟨"img1", .front, none, none, none, none, none, none, none⟩ (by decide) ?_
    intro item hit
    simp only [List.mem_singleton] at hit
    subst hit
    decide

theorem mem_REQUIRED_ANGLES (a : ScanAngle) : a ∈ REQUIRED_ANGLES := by
  cases a <;> simp [REQUIRED_ANGLES]

theorem mem_missing_filter (images : List ScanImage) (a : ScanAngle) :
    (a ∈ REQUIRED_ANGLES.filter
      (fun b => !(images.any (fun image => image.angle == b)))) ↔
      ∀ image ∈ images, image.angle ≠ a := by
  rw [List.mem_filter]
  simp [mem_REQUIRED_ANGLES a, List.any_eq_false]

/-- C5: the required-angle set is exactly the five listed angles, and after
every issuance call and every ingestion run the persisted `missingAngles` is
exactly the required set minus the angles of the recorded rows (for issuance:
the rows after the upserts; for ingestion: the rows loaded with the scan);
ingestion also adds `missing_angle:<angle>` for each missing angle. -/
theorem missingAngles_invariant :
    REQUIRED_ANGLES.length = 5 ∧ REQUIRED_ANGLES.Nodup ∧
    (∀ a : ScanAngle, a ∈ REQUIRED_ANGLES) ∧
    (∀ (cfg : S3Config) (env : IssuerEnv) (scan : Scan)
      (items : List UploadAngleRequest) (a : ScanAngle),
      a ∈ (createUploadUrls cfg env scan items).1.missingAngles ↔
        ∀ image ∈ (createUploadUrls cfg env scan items).1.images, image.angle ≠ a) ∧
    (∀ (env : IngestEnv) (scan : Scan) (a : ScanAngle),
      (a ∈ (ingestScanMedia env scan).missingAngles ↔
        ∀ image ∈ scan.images, image.angle ≠ a) ∧
      (a ∈ (ingestScanMedia env scan).missingAngles →
        flagFor "missing_angle" a ∈ (ingestScanMedia env scan).qualityFlags)) := by
  refine ⟨rfl, by decide, mem_REQUIRED_ANGLES, ?_, ?_⟩
  · intro cfg env scan items a
    have h : (createUploadUrls cfg env scan items).1.missingAngles =
        REQUIRED_ANGLES.filter (fun b =>
          !((createUploadUrls cfg env scan items).1.images.any
            (fun image => image.angle == b))) := rfl
    rw [h, mem_missing_filter]
  · intro env scan a
    have h : (ingestScanMedia env scan).missingAngles =
        REQUIRED_ANGLES.filter (fun b =>
          !(scan.images.any (fun image => image.angle == b))) := rfl
    constructor
    · rw [h, mem_missing_filter]
    · intro ha
      rw [mem_ingest_qualityFlags]
      exact Or.inr ⟨a, ha, rfl⟩

/-- Witness for `missingAngles_invariant`: ingesting a scan that records only
the front angle leaves `left` missing and flags it. -/
theorem missingAngles_invariant_witness :
    flagFor "missing_angle" ScanAngle.left ∈
      (ingestScanMedia envNullBody scanFrontK).qualityFlags :=
  (missingAngles_invariant.2.2.2.2 envNullBody scanFrontK ScanAngle.left).2
    (by decide)

theorem any_angle_iff_rowsAt (images : List ScanImage) (b : ScanAngle) :
    (images.any (fun image => image.angle == b)) = true ↔ rowsAt images b ≠ [] := by
  rw [List.any_eq_true]
  constructor
  · rintro ⟨x, hx, hb⟩ hnil
    have hmem : x ∈ rowsAt images b := List.mem_filter.mpr ⟨hx, hb⟩
    rw [hnil] at hmem
    exact absurd hmem (List.not_mem_nil x)
  · intro hne
    rcases hrow : rowsAt images b with _ | ⟨row, rest⟩
    · exact absurd hrow hne
    · have hmem : row ∈ rowsAt images b := by
        rw [hrow]
        exact List.mem_cons_self _ _
      obtain ⟨hx, hb⟩ := List.mem_filter.mp hmem
      exact ⟨row, hx, hb⟩

theorem filter_angle_map (a : ScanAngle) (f : ScanImage → ScanImage)
    (hangle : ∀ x, (f x).angle = x.angle) :
    ∀ images : List ScanImage,
      (images.map f).filter (fun image => image.angle == a) =
        (images.filter (fun image => image.angle == a)).map f := by
  intro images
  induction images with
  | nil => rfl
  | cons x xs ih =>
      rw [List.map_cons, List.filter_cons, List.filter_cons, hangle x]
      by_cases hx : (x.angle == a) = true
      · simp only [hx, if_true, List.map_cons, ih]
      · simp only [hx, if_false, Bool.false_eq_true, ih]

theorem rowsAt_upsert_same (env : IssuerEnv) (sid : String)
    (images : List ScanImage) (b : ScanAngle) (k u : String) (cs : Option String) :
    rowsAt (upsertScanImage env sid images b k u cs) b =
      if rowsAt images b = [] then
        [{ id := env.newId sid b, angle := b, storageKey := some k, url := some u,
           checksum := cs, blurScore := none, lightScore := none, poseOk := none,
           landmarks := none }]
      else
        (rowsAt images b).map fun image =>
          { image with
              storageKey := some k
              url := some u
              checksum :=
                match cs with
                | some c => some c
                | none => image.checksum } := by
  by_cases hany : (images.any (fun image => image.angle == b)) = true
  · have hne := (any_angle_iff_rowsAt images b).mp hany
    rw [upsertScanImage, if_pos hany, if_neg hne]
    rw [rowsAt, filter_angle_map b _ (fun x => by
      by_cases hx : (x.angle == b) = true <;> simp [hx])]
    rw [← rowsAt]
    refine List.map_congr_left ?_
    intro x hx
    obtain ⟨-, hb⟩ := List.mem_filter.mp hx
    rw [if_pos hb]
  · have heq : rowsAt images b = [] := by
      by_contra hne
      exact hany ((any_angle_iff_rowsAt images b).mpr hne)
    rw [upsertScanImage, if_neg hany, if_pos heq, rowsAt, List.filter_append]
    rw [← rowsAt, heq]
    simp

theorem rowsAt_upsert_other (env : IssuerEnv) (sid : String)
    (images : List ScanImage) (a b : ScanAngle) (k u : String) (cs : Option String)
    (hne : a ≠ b) :
    rowsAt (upsertScanImage env sid images b k u cs) a = rowsAt images a := by
  by_cases hany : (images.any (fun image => image.angle == b)) = true
  · rw [upsertScanImage, if_pos hany]
    rw [rowsAt, filter_angle_map a _ (fun x => by
      by_cases hx : (x.angle == b) = true <;> simp [hx])]
    rw [← rowsAt]
    have : ∀ x ∈ rowsAt images a,
        (if (x.angle == b) = true then
          { x with
              storageKey := some k
              url := some u
              checksum :=
                match cs with
                | some c => some c
                | none => x.checksum }
        else x) = x := by
      intro x hx
      obtain ⟨-, ha⟩ := List.mem_filter.mp hx
      have hxb : (x.angle == b) = false := by
        have hxa : x.angle = a := by
          exact beq_iff_eq.mp ha
        simp [hxa, hne]
      simp [hxb]
    rw [List.map_congr_left this]
    simp
  · rw [upsertScanImage, if_neg hany, rowsAt, List.filter_append, ← rowsAt]
    simp [Ne.symm hne]

theorem eq_singleton_of_mem_of_le_one {α : Type} {l : List α} (h : l.length ≤ 1)
    {x : α} (hx : x ∈ l) : l = [x] := by
  rcases l with _ | ⟨y, rest⟩
  · exact absurd hx (List.not_mem_nil x)
  · rcases rest with _ | ⟨z, rest'⟩
    · rw [List.mem_singleton] at hx
      rw [hx]
    · exfalso
      simp only [List.length_cons] at h
      omega

theorem foldl_issueStep_fst (cfg : S3Config) (env : IssuerEnv) (scan : Scan)
    (items : List UploadAngleRequest) :
    ∀ acc : List ScanImage × List UploadUrlResult,
      (items.foldl (issueStep cfg env scan) acc).1 =
        items.foldl (upsertForItem cfg env scan) acc.1 := by
  induction items with
  | nil =>
      intro acc
      rfl
  | cons item rest ih =>
      intro acc
      rw [List.foldl_cons, List.foldl_cons, ih]
      rfl

theorem rowsAt_foldl_upsert (cfg : S3Config) (env : IssuerEnv) (scan : Scan)
    (a : ScanAngle) :
    ∀ (items : List UploadAngleRequest) (images : List ScanImage),
      (rowsAt images a).length ≤ 1 →
      ((rowsAt (items.foldl (upsertForItem cfg env scan) images) a).length ≤ 1 ∧
       (((∃ item ∈ items, item.angle = a) ∨ rowsAt images a ≠ []) →
         (rowsAt (items.foldl (upsertForItem cfg env scan) images) a).length = 1) ∧
       (∀ row ∈ rowsAt (items.foldl (upsertForItem cfg env scan) images) a,
         row.checksum = latestChecksum (initialChecksum images a) a items)) := by
  intro items
  induction items with
  | nil =>
      intro images hlen
      refine ⟨hlen, ?_, ?_⟩
      · rintro (⟨item, hit, -⟩ | hne)
        · exact absurd hit (List.not_mem_nil item)
        · rcases hrow : rowsAt images a with _ | ⟨row, res⟩
          · exact absurd hrow hne
          · rw [List.foldl_nil, hrow]
            rw [hrow] at hlen
            simp only [List.length_cons] at hlen ⊢
            omega
      · intro row hrow
        rw [List.foldl_nil] at hrow
        have heq : rowsAt images a = [row] := eq_singleton_of_mem_of_le_one hlen hrow
        show row.checksum = initialChecksum images a
        rw [initialChecksum, heq]
  | cons item rest ih =>
      intro images hlen
      by_cases hb : (item.angle == a) = true
      · obtain rfl : a = item.angle := (beq_iff_eq.mp hb).symm
        have hrows1 : rowsAt (upsertForItem cfg env scan images item) item.angle =
            if rowsAt images item.angle = [] then
              [{ id := env.newId scan.id item.angle, angle := item.angle,
                 storageKey := some (keyForAngle scan.id scan.patientId item.angle
                   (extensionForContentType item.contentType)),
                 url := some (buildPublicUrl cfg
                   (keyForAngle scan.id scan.patientId item.angle
                     (extensionForContentType item.contentType))),
                 checksum := item.checksum, blurScore := none, lightScore := none,
                 poseOk := none, landmarks := none }]
            else
              (rowsAt images item.angle).map fun image =>
                { image with
                    storageKey := some (keyForAngle scan.id scan.patientId item.angle
                      (extensionForContentType item.contentType))
                    url := some (buildPublicUrl cfg
                      (keyForAngle scan.id scan.patientId item.angle
                        (extensionForContentType item.contentType)))
                    checksum :=
                      match item.checksum with
                      | some c => some c
                      | none => image.checksum } :=
          rowsAt_upsert_same env scan.id images item.angle _ _ item.checksum
        have hlen1 : (rowsAt (upsertForItem cfg env scan images item) item.angle).length
            = 1 := by
          rw [hrows1]
          by_cases hempty : rowsAt images item.angle = []
          · rw [if_pos hempty]
            rfl
          · rw [if_neg hempty]
            rcases hrow : rowsAt images item.angle with _ | ⟨row, res⟩
            · exact absurd hrow hempty
            · rw [hrow] at hlen
              simp only [List.length_map, hrow, List.length_cons] at hlen ⊢
              omega
        have hinit1 : initialChecksum (upsertForItem cfg env scan images item)
            item.angle =
            (match item.checksum with
             | some c => some c
             | none => initialChecksum images item.angle) := by
          by_cases hempty : rowsAt images item.angle = []
          · rw [initialChecksum, hrows1, if_pos hempty, initialChecksum, hempty]
            rcases item.checksum with _ | c <;> rfl
          · rcases hrow : rowsAt images item.angle with _ | ⟨row, res⟩
            · exact absurd hrow hempty
            · have hres : res = [] := by
                rw [hrow] at hlen
                simp only [List.length_cons] at hlen
                exact List.length_eq_zero.mp (by omega)
              subst hres
              rw [initialChecksum, hrows1, if_neg hempty, hrow, initialChecksum, hrow]
              rfl
        have hne1 : rowsAt (upsertForItem cfg env scan images item) item.angle ≠ [] := by
          intro hnil
          rw [hnil] at hlen1
          exact absurd hlen1 (by decide)
        obtain ⟨h1, h2, h3⟩ := ih (upsertForItem cfg env scan images item)
          (le_of_eq hlen1)
        rw [List.foldl_cons]
        refine ⟨h1, fun _ => h2 (Or.inr hne1), ?_⟩
        intro row hrow
        have hstep : latestChecksum (initialChecksum images item.angle) item.angle
            (item :: rest) =
            latestChecksum
              (match item.checksum with
               | some c => some c
               | none => initialChecksum images item.angle) item.angle rest := by
          simp only [latestChecksum, List.foldl_cons]
          rw [if_pos hb]
        rw [hstep, ← hinit1]
        exact h3 row hrow
      · have hne : item.angle ≠ a := fun he => hb (beq_iff_eq.mpr he)
        have hrows1 : rowsAt (upsertForItem cfg env scan images item) a =
            rowsAt images a :=
          rowsAt_upsert_other env scan.id images a item.angle _ _ item.checksum
            (Ne.symm hne)
        have hinit1 : initialChecksum (upsertForItem cfg env scan images item) a =
            initialChecksum images a := by
          rw [initialChecksum, initialChecksum, hrows1]
        obtain ⟨h1, h2, h3⟩ := ih (upsertForItem cfg env scan images item)
          (by rw [hrows1]; exact hlen)
        rw [List.foldl_cons]
        have hstep : latestChecksum (initialChecksum images a) a (item :: rest) =
            latestChecksum (initialChecksum images a) a rest := by
          simp only [latestChecksum, List.foldl_cons]
          rw [if_neg hb]
        refine ⟨h1, ?_, ?_⟩
        · rintro (⟨it, hit, hita⟩ | hnonempty)
          · rcases List.mem_cons.mp hit with rfl | hit'
            · exact absurd hita hne
            · exact h2 (Or.inl ⟨it, hit', hita⟩)
          · refine h2 (Or.inr ?_)
            rw [hrows1]
            exact hnonempty
        · intro row hrow
          rw [hstep, ← hinit1]
          exact h3 row hrow

theorem upsertForItem_congr (cfg : S3Config) (env : IssuerEnv) (s s' : Scan)
    (hid : s'.id = s.id) (hpid : s'.patientId = s.patientId) :
    upsertForItem cfg env s' = upsertForItem cfg env s := by
  funext images item
  rw [upsertForItem, upsertForItem, hid, hpid]

theorem runCalls_unfold (cfg : S3Config) (env : IssuerEnv) :
    ∀ (calls : List (List UploadAngleRequest)) (scan : Scan),
      (runCalls cfg env scan calls).images =
        calls.flatten.foldl (upsertForItem cfg env scan) scan.images ∧
      (runCalls cfg env scan calls).id = scan.id ∧
      (runCalls cfg env scan calls).patientId = scan.patientId := by
  intro calls
  induction calls with
  | nil =>
      intro scan
      exact ⟨rfl, rfl, rfl⟩
  | cons call rest ih =>
      intro scan
      have hrun : runCalls cfg env scan (call :: rest) =
          runCalls cfg env (createUploadUrls cfg env scan call).1 rest := rfl
      obtain ⟨h1, h2, h3⟩ := ih (createUploadUrls cfg env scan call).1
      have hone : (createUploadUrls cfg env scan call).1.images =
          call.foldl (upsertForItem cfg env scan) scan.images := by
        have := foldl_issueStep_fst cfg env scan call (scan.images, [])
        exact this
      have hcongr : upsertForItem cfg env (createUploadUrls cfg env scan call).1 =
          upsertForItem cfg env scan :=
        upsertForItem_congr cfg env scan _ rfl rfl
      refine ⟨?_, ?_, ?_⟩
      · rw [hrun, h1, hcongr, hone, List.flatten_cons, List.foldl_append]
      · rw [hrun, h2]
        rfl
      · rw [hrun, h3]
        rfl

/-- C8 (amended): after any sequence of issuance calls touching an angle of a
scan whose rows are unique per angle, exactly one ScanImage row for that angle
remains, and its checksum is the most recently *supplied* one — a call that
supplies a checksum overwrites the prior value, while a call that omits it
leaves the prior checksum in place (Prisma ignores an `undefined` field in the
`update` branch of an upsert). -/
theorem upsertLatestChecksum_spec (cfg : S3Config) (env : IssuerEnv) (scan : Scan)
    (calls : List (List UploadAngleRequest)) (a : ScanAngle)
    (huniq : (rowsAt scan.images a).length ≤ 1)
    (htarget : (∃ call ∈ calls, ∃ item ∈ call, item.angle = a) ∨
      rowsAt scan.images a ≠ []) :
    (rowsAt (runCalls cfg env scan calls).images a).length = 1 ∧
    ∀ row ∈ rowsAt (runCalls cfg env scan calls).images a,
      row.checksum =
        latestChecksum (initialChecksum scan.images a) a calls.flatten := by
  obtain ⟨him, -, -⟩ := runCalls_unfold cfg env calls scan
  rw [him]
  obtain ⟨-, h2, h3⟩ := rowsAt_foldl_upsert cfg env scan a calls.flatten scan.images
    huniq
  refine ⟨h2 ?_, h3⟩
  rcases htarget with ⟨call, hcall, item, hitem, ha⟩ | h
  · exact Or.inl ⟨item, List.mem_flatten.mpr ⟨call, hcall, hitem⟩, ha⟩
  · exact Or.inr h

/-- Witness for `upsertLatestChecksum_spec`: one call with checksum `"abc"`
leaves one front row carrying `"abc"`. -/
theorem upsertLatestChecksum_spec_witness :
    (rowsAt (runCalls s3ConfigW issuerEnvW scanNoImages
      [[⟨.front, "image/jpeg", some "abc"⟩]]).images ScanAngle.front).length = 1 :=
  (upsertLatestChecksum_spec s3ConfigW issuerEnvW scanNoImages
      [[⟨.front, "image/jpeg", some "abc"⟩]] .front (by decide)
      (Or.inl ⟨[⟨.front, "image/jpeg", some "abc"⟩], List.mem_singleton.mpr rfl,
        ⟨.front, "image/jpeg", some "abc"⟩, List.mem_singleton.mpr rfl, rfl⟩)).1

/-- Counterexample to C8 as stated: a first call supplies checksum `"abc"` for
`front`, a second call for the same angle supplies none; the surviving row
retains `"abc"`, not the (absent) checksum of the latest call. -/
theorem upsertLatestChecksum_claim_cex :
    (rowsAt (runCalls s3ConfigW issuerEnvW scanNoImages
        [[⟨.front, "image/jpeg", some "abc"⟩], [⟨.front, "image/jpeg", none⟩]]).images
      ScanAngle.front).map (fun image => image.checksum) = [some "abc"] ∧
    (⟨.front, "image/jpeg", none⟩ : UploadAngleRequest).checksum = none ∧
    some "abc" ≠ (none : Option String) := by
  refine ⟨by decide, rfl, by decide⟩
